import Mathlib

/-!
Verification development for the MCalculator reach-simulation core.

The Python source is shallowly embedded over exact rationals (`ℚ`):

* Python `float` arithmetic (`+`, `-`, `*`, `/`, comparisons, `math.floor`,
  `round`) is modelled exactly over `ℚ`; `float("inf")` / `float("-inf")`
  become `WithTop ℚ` / `WithBot ℚ`, and IEEE NaN (used only as the
  "no data" sentinel of `SummaryStats`) becomes `Option.none`.
* `math.sqrt` is irrational over `ℚ`; every definition that needs it takes an
  explicit parameter `sqrtQ : ℚ → ℚ` standing for the square-root routine.
* `numpy.random.default_rng(seed)` is modelled as a counter-indexed stream:
  an abstract draw function `gen : ℤ → ℕ → ℚ → ℚ → ℚ` maps
  (seed, draw index, low, high) to the drawn value, and a generator instance
  is the pair (seed, next index).  Statements quantify over `gen`.
* Python callables used as cancellation flags are modelled by explicit state
  passing: the flag is a function of its query index, and the query counter
  is threaded through the run.
-/

namespace MCalc

/-! ### core/geometry/vec3.py and core/math/scalar.py -/

/-- `Vec3` from core/geometry/vec3.py, with `float` coordinates modelled as `ℚ`. -/
structure Vec3 where
  x : ℚ
  y : ℚ
  z : ℚ
deriving DecidableEq, Repr

instance : Add Vec3 := ⟨fun a b => ⟨a.x + b.x, a.y + b.y, a.z + b.z⟩⟩

instance : Sub Vec3 := ⟨fun a b => ⟨a.x - b.x, a.y - b.y, a.z - b.z⟩⟩

/-- `Vec3.__mul__`: uniform scaling. -/
instance : HMul Vec3 ℚ Vec3 := ⟨fun v k => ⟨v.x * k, v.y * k, v.z * k⟩⟩

/-- `Vec3.dot` from core/geometry/vec3.py. -/
def Vec3.dot (a b : Vec3) : ℚ := a.x * b.x + a.y * b.y + a.z * b.z

/-- `clamp` from core/math/scalar.py. -/
def clamp (v lo hi : ℚ) : ℚ := if v < lo then lo else if hi < v then hi else v

/-! ### core/geometry/aabb.py -/

/-- `AABB` from core/geometry/aabb.py. -/
structure AABB where
  mn : Vec3
  mx : Vec3
deriving DecidableEq, Repr

/-- `AABB.contains`. -/
def AABB.contains (b : AABB) (p : Vec3) : Bool :=
  b.mn.x ≤ p.x && p.x ≤ b.mx.x && b.mn.y ≤ p.y && p.y ≤ b.mx.y &&
    b.mn.z ≤ p.z && p.z ≤ b.mx.z

/-- `AABB.closest_point`. -/
def AABB.closest_point (b : AABB) (p : Vec3) : Vec3 :=
  ⟨clamp p.x b.mn.x b.mx.x, clamp p.y b.mn.y b.mx.y, clamp p.z b.mn.z b.mx.z⟩

/-- `AABB.corners` (fixed enumeration order). -/
def AABB.corners (b : AABB) : List Vec3 :=
  [⟨b.mn.x, b.mn.y, b.mn.z⟩, ⟨b.mx.x, b.mn.y, b.mn.z⟩,
   ⟨b.mx.x, b.mx.y, b.mn.z⟩, ⟨b.mn.x, b.mx.y, b.mn.z⟩,
   ⟨b.mn.x, b.mn.y, b.mx.z⟩, ⟨b.mx.x, b.mn.y, b.mx.z⟩,
   ⟨b.mx.x, b.mx.y, b.mx.z⟩, ⟨b.mn.x, b.mx.y, b.mx.z⟩]

/-! ### Python rounding

Python's built-in `round` on floats rounds half to even (banker's rounding);
`int(round(x))` is therefore the nearest integer with ties to even. -/

/-- Python `int(round(q))`: nearest integer, ties to the even integer. -/
def pyRound (q : ℚ) : ℤ :=
  let f := ⌊q⌋
  let r := q - (f : ℚ)
  if r < 1/2 then f
  else if 1/2 < r then f + 1
  else if f % 2 = 0 then f else f + 1

/-! ### core/geometry/sampling.py -/

/-- `_linspace_01` from core/geometry/sampling.py. -/
def linspace_01 (n : ℤ) : List ℚ :=
  if n ≤ 1 then [1/2]
  else
    let inv : ℚ := 1 / ((n : ℚ) - 1)
    (List.range n.toNat).map fun i => (i : ℚ) * inv

/-- The nested `_count_for` of `_surface_offsets_cached`, with its captured
`n` (already clamped to `≥ 1`) and `max_dim` made explicit parameters. -/
def count_for (n : ℤ) (max_dim dim : ℚ) : ℤ :=
  if n ≤ 1 then 1
  else if |dim| ≤ 1/10^12 then 1
  else max 2 (pyRound (1 + ((n : ℚ) - 1) * (|dim| / max_dim)))

/-- The microunit quantization key of `_add` inside `_surface_offsets_cached`:
`(int(round(x*1e6)), int(round(y*1e6)), int(round(z*1e6)))`. -/
def quantKey (p : Vec3) : ℤ × ℤ × ℤ :=
  (pyRound (p.x * 10^6), pyRound (p.y * 10^6), pyRound (p.z * 10^6))

/-- The `uniq` dict of `_surface_offsets_cached`: keep the first point for each
microunit quantization key, in insertion order. -/
def dedupByKey : List Vec3 → List (ℤ × ℤ × ℤ) → List Vec3
  | [], _ => []
  | p :: rest, seen =>
    if quantKey p ∈ seen then dedupByKey rest seen
    else p :: dedupByKey rest (quantKey p :: seen)

/-- The face lattice points generated by the three nested loops of
`_surface_offsets_cached` (lines 56-69), in their insertion order: the two
x faces over `ys × zs`, then the two y faces over `xs × zs`, then the two z
faces over `xs × ys`. -/
def faceCandidates (sx sy sz : ℚ) (xs ys zs : List ℚ) : List Vec3 :=
  (ys.flatMap fun y => zs.flatMap fun z => [⟨0, y, z⟩, ⟨sx, y, z⟩]) ++
  (xs.flatMap fun x => zs.flatMap fun z => [⟨x, 0, z⟩, ⟨x, sy, z⟩]) ++
  (xs.flatMap fun x => ys.flatMap fun y => [⟨x, y, 0⟩, ⟨x, y, sz⟩])

/-- `_surface_offsets_cached` from core/geometry/sampling.py.  The
`lru_cache` is a pure memoization of this function of its arguments and is
semantically the identity, so it is not modelled. -/
def surface_offsets_cached (sx_q sy_q sz_q n0 : ℤ) : List Vec3 :=
  let sx : ℚ := (sx_q : ℚ) * (1/10^6)
  let sy : ℚ := (sy_q : ℚ) * (1/10^6)
  let sz : ℚ := (sz_q : ℚ) * (1/10^6)
  let n := max 1 n0
  let max_dim : ℚ := max |sx| (max |sy| (max |sz| (1/10^12)))
  let nx := count_for n max_dim sx
  let ny := count_for n max_dim sy
  let nz := count_for n max_dim sz
  let xs := (linspace_01 nx).map fun t => sx * t
  let ys := (linspace_01 ny).map fun t => sy * t
  let zs := (linspace_01 nz).map fun t => sz * t
  dedupByKey (faceCandidates sx sy sz xs ys zs) []

/-- `sample_aabb_surface` from core/geometry/sampling.py. -/
def sample_aabb_surface (box : AABB) (n0 : ℤ) : List Vec3 :=
  let n := max 1 n0
  let sx : ℚ := box.mx.x - box.mn.x
  let sy : ℚ := box.mx.y - box.mn.y
  let sz : ℚ := box.mx.z - box.mn.z
  let sx_q := pyRound (sx * 10^6)
  let sy_q := pyRound (sy * 10^6)
  let sz_q := pyRound (sz * 10^6)
  let offs := surface_offsets_cached sx_q sy_q sz_q n
  offs.map fun o => ⟨box.mn.x + o.x, box.mn.y + o.y, box.mn.z + o.z⟩

/-- `sample_segment` from core/geometry/sampling.py. -/
def sample_segment (p0 p1 : Vec3) (n0 : ℤ) : List Vec3 :=
  let n := max 1 n0
  if n = 1 then [p0]
  else
    let d := p1 - p0
    let inv : ℚ := 1 / ((n : ℚ) - 1)
    (List.range n.toNat).map fun i => p0 + d * ((i : ℚ) * inv)

/-! ### core/raycast/voxel_dda.py

`segment_hits_solid_blocks_dda` runs the Amanatides-Woo traversal.  The float
infinities used for the `t_max` / `t_delta` of zero-direction axes become
`WithTop ℚ`.  The loop is defined with explicit fuel (`ddaLoopF`); a fuel
bound `ddaMeasure s + 2` is proven sufficient below, so the packaged function
`ddaRun` never falls through to its default. -/

/-- The three grid axes. -/
inductive Axis where
  | x
  | y
  | z
deriving DecidableEq, Repr

/-- State of the DDA loop (lines 28-60 initialize it, lines 61-83 step it). -/
structure DdaState where
  vx : ℤ
  vy : ℤ
  vz : ℤ
  stepX : ℤ
  stepY : ℤ
  stepZ : ℤ
  tMaxX : WithTop ℚ
  tMaxY : WithTop ℚ
  tMaxZ : WithTop ℚ
  tDeltaX : WithTop ℚ
  tDeltaY : WithTop ℚ
  tDeltaZ : WithTop ℚ
  t : WithTop ℚ
deriving DecidableEq

/-- The axis advanced by one loop iteration: the nested comparisons of lines
65-82 (`if t_max_x < t_max_y: if t_max_x < t_max_z: x else z
else: if t_max_y < t_max_z: y else z`). -/
def ddaChoose (tx ty tz : WithTop ℚ) : Axis :=
  if tx < ty then (if tx < tz then .x else .z)
  else (if ty < tz then .y else .z)

/-- One advance step of the DDA loop body (lines 65-82): step the chosen
axis's voxel coordinate, set `t` to that axis's `t_max`, and accumulate that
axis's `t_delta` into its `t_max`. -/
def ddaStep (s : DdaState) : DdaState :=
  match ddaChoose s.tMaxX s.tMaxY s.tMaxZ with
  | .x => { s with vx := s.vx + s.stepX, t := s.tMaxX, tMaxX := s.tMaxX + s.tDeltaX }
  | .y => { s with vy := s.vy + s.stepY, t := s.tMaxY, tMaxY := s.tMaxY + s.tDeltaY }
  | .z => { s with vz := s.vz + s.stepZ, t := s.tMaxZ, tMaxZ := s.tMaxZ + s.tDeltaZ }

/-- The `while t <= 1` loop of lines 61-84, with explicit fuel.  `none` means
the fuel ran out (shown impossible for the fuel used by `ddaRun`). -/
def ddaLoopF (solids : Finset (ℤ × ℤ × ℤ)) : ℕ → DdaState → Option Bool
  | 0, _ => none
  | fuel + 1, s =>
    if s.t ≤ (1 : WithTop ℚ) then
      if (s.vx, s.vy, s.vz) ∈ solids then some true
      else ddaLoopF solids fuel (ddaStep s)
    else some false

/-- Fuel contribution of one axis: how many more times its `t_max` can be at
most 1 before exceeding it (0 for the infinite axes). -/
def axisMeasure (tmax tdelta : WithTop ℚ) : ℕ :=
  match tmax, tdelta with
  | some m, some d => (⌈(1 + d - m) / d⌉).toNat
  | _, _ => 0

/-- Fuel measure for the DDA loop. -/
def ddaMeasure (s : DdaState) : ℕ :=
  axisMeasure s.tMaxX s.tDeltaX + axisMeasure s.tMaxY s.tDeltaY +
    axisMeasure s.tMaxZ s.tDeltaZ

/-- The DDA loop with its sufficient fuel; the default `false` of `getD`
matches the `return False` after the loop and is proven unreachable. -/
def ddaRun (solids : Finset (ℤ × ℤ × ℤ)) (s : DdaState) : Bool :=
  (ddaLoopF solids (ddaMeasure s + 2) s).getD false

/-- Initialization of the DDA state (lines 22-60) for a non-degenerate
segment.  `sqrtQ` models `math.sqrt` in the start-point nudge
`x0 += dx * (1 / sqrt(len2)) * eps` of lines 23-26. -/
def ddaInit (sqrtQ : ℚ → ℚ) (p0 p1 : Vec3) : DdaState :=
  let dx := p1.x - p0.x
  let dy := p1.y - p0.y
  let dz := p1.z - p0.z
  let eps : ℚ := 1/10^9
  let inv_len : ℚ := 1 / sqrtQ (dx * dx + dy * dy + dz * dz)
  let x0 := p0.x + dx * inv_len * eps
  let y0 := p0.y + dy * inv_len * eps
  let z0 := p0.z + dz * inv_len * eps
  let vx := ⌊x0⌋
  let vy := ⌊y0⌋
  let vz := ⌊z0⌋
  let stepX : ℤ := if 0 < dx then 1 else if dx < 0 then -1 else 0
  let stepY : ℤ := if 0 < dy then 1 else if dy < 0 then -1 else 0
  let stepZ : ℤ := if 0 < dz then 1 else if dz < 0 then -1 else 0
  let tMaxX : WithTop ℚ :=
    if stepX ≠ 0 then
      some (((if 0 < stepX then ((vx : ℚ) + 1) else (vx : ℚ)) - x0) / dx)
    else ⊤
  let tDeltaX : WithTop ℚ := if stepX ≠ 0 then some (1 / |dx|) else ⊤
  let tMaxY : WithTop ℚ :=
    if stepY ≠ 0 then
      some (((if 0 < stepY then ((vy : ℚ) + 1) else (vy : ℚ)) - y0) / dy)
    else ⊤
  let tDeltaY : WithTop ℚ := if stepY ≠ 0 then some (1 / |dy|) else ⊤
  let tMaxZ : WithTop ℚ :=
    if stepZ ≠ 0 then
      some (((if 0 < stepZ then ((vz : ℚ) + 1) else (vz : ℚ)) - z0) / dz)
    else ⊤
  let tDeltaZ : WithTop ℚ := if stepZ ≠ 0 then some (1 / |dz|) else ⊤
  ⟨vx, vy, vz, stepX, stepY, stepZ, tMaxX, tMaxY, tMaxZ,
    tDeltaX, tDeltaY, tDeltaZ, (0 : ℚ)⟩

/-- `segment_hits_solid_blocks_dda` from core/raycast/voxel_dda.py. -/
def segment_hits_solid_blocks_dda (sqrtQ : ℚ → ℚ) (p0 p1 : Vec3)
    (solids : Finset (ℤ × ℤ × ℤ)) : Bool :=
  let dx := p1.x - p0.x
  let dy := p1.y - p0.y
  let dz := p1.z - p0.z
  let eps : ℚ := 1/10^9
  if dx = 0 ∧ dy = 0 ∧ dz = 0 then
    (⌊p0.x + eps⌋, ⌊p0.y + eps⌋, ⌊p0.z + eps⌋) ∈ solids
  else
    ddaRun solids (ddaInit sqrtQ p0 p1)

/-- The initialization invariant the termination proof needs: on each axis
either both `t_max` and `t_delta` are infinite (zero direction component) or
`t_delta` is finite and positive. -/
def AxisWF (tmax tdelta : WithTop ℚ) : Prop :=
  (tmax = ⊤ ∧ tdelta = ⊤) ∨ (tdelta ≠ ⊤ ∧ 0 < tdelta)

instance (tmax tdelta : WithTop ℚ) : Decidable (AxisWF tmax tdelta) := by
  unfold AxisWF; infer_instance

/-- Well-formedness of a DDA state. -/
def StateWF (s : DdaState) : Prop :=
  AxisWF s.tMaxX s.tDeltaX ∧ AxisWF s.tMaxY s.tDeltaY ∧ AxisWF s.tMaxZ s.tDeltaZ

instance (s : DdaState) : Decidable (StateWF s) := by
  unfold StateWF; infer_instance

/-! ### core/geometry/intersection.py -/

/-- `SegmentHit` from core/geometry/intersection.py. -/
structure SegmentHit where
  hit : Bool
  t_enter : ℚ
  t_exit : ℚ
deriving DecidableEq, Repr

/-- The per-axis slab update of `segment_intersects_aabb`: given the (nudged)
start coordinate, direction component, slab bounds and the running
`(tmin, tmax)` interval, return `none` for an early no-hit exit and the
updated interval otherwise. -/
def slabAxis (eps start_nudge p0a da mina maxa : ℚ) (tmin tmax : ℚ) :
    Option (ℚ × ℚ) :=
  if |da| < eps then
    if p0a < mina - start_nudge ∨ maxa + start_nudge < p0a then none
    else some (tmin, tmax)
  else
    let inv := 1 / da
    let t1 := (mina - p0a) * inv
    let t2 := (maxa - p0a) * inv
    let t1' := if t2 < t1 then t2 else t1
    let t2' := if t2 < t1 then t1 else t2
    let tmin' := max tmin t1'
    let tmax' := min tmax t2'
    if tmax' + eps < tmin' then none else some (tmin', tmax')

/-- `segment_intersects_aabb` from core/geometry/intersection.py with the
default `eps = 1e-12` and `start_nudge = 1e-9`; `sqrtQ` models the
`math.sqrt` inside `d.norm()` used for the start-point nudge. -/
def segment_intersects_aabb (sqrtQ : ℚ → ℚ) (p0 p1 : Vec3) (box : AABB) :
    SegmentHit :=
  let eps : ℚ := 1/10^12
  let start_nudge : ℚ := 1/10^9
  let d0 := p1 - p0
  let dlen := sqrtQ (d0.dot d0)
  let p0' := if 1/10^15 < dlen then p0 + d0 * (start_nudge / dlen) else p0
  let d := p1 - p0'
  match slabAxis eps start_nudge p0'.x d.x box.mn.x box.mx.x 0 1 with
  | none => ⟨false, 0, 0⟩
  | some (tm1, tM1) =>
    match slabAxis eps start_nudge p0'.y d.y box.mn.y box.mx.y tm1 tM1 with
    | none => ⟨false, 0, 0⟩
    | some (tm2, tM2) =>
      match slabAxis eps start_nudge p0'.z d.z box.mn.z box.mx.z tm2 tM2 with
      | none => ⟨false, 0, 0⟩
      | some (tmin, tmax) =>
        if tmax < 0 ∨ 1 < tmin then ⟨false, 0, 0⟩
        else ⟨true, max 0 tmin, min 1 tmax⟩

/-! ### core/raycast/visibility.py -/

/-- The blocker scan of `is_visible`: any box other than `ignore` whose
segment test hits blocks visibility. -/
def blockedByList (sqrtQ : ℚ → ℚ) (attacker target_point : Vec3)
    (ignore : Option AABB) : List AABB → Bool
  | [] => false
  | b :: rest =>
    if ignore = some b then blockedByList sqrtQ attacker target_point ignore rest
    else if (segment_intersects_aabb sqrtQ attacker target_point b).hit then true
    else blockedByList sqrtQ attacker target_point ignore rest

/-- `is_visible` from core/raycast/visibility.py. -/
def is_visible (sqrtQ : ℚ → ℚ) (attacker target_point : Vec3)
    (blockers : Option (List AABB)) (solid_blocks : Option (Finset (ℤ × ℤ × ℤ)))
    (ignore : Option AABB) : Bool :=
  match solid_blocks with
  | some solids => ! segment_hits_solid_blocks_dda sqrtQ attacker target_point solids
  | none =>
    match blockers with
    | none => true
    | some bs => ! blockedByList sqrtQ attacker target_point ignore bs

/-! ### core/reach/attack.py -/

/-- `AttackEval` from core/reach/attack.py.  `min_dist` is `WithTop ℚ`
(`⊤` models `float("inf")`); its finite value is `sqrtQ` applied to the
internal squared minimum `best2`, exactly as line 106 computes
`math.sqrt(best2)`. -/
structure AttackEval where
  min_dist : WithTop ℚ
  aim_target : Vec3
  any_visible : Bool
  any_reachable : Bool
  visible_frac : ℚ
  within_reach_of_visible : ℚ
  within_reach_of_total : ℚ
  seg_start : Vec3
  seg_end : Vec3
deriving DecidableEq

/-- Squared distance `dx*dx + dy*dy + dz*dz` of the inner loop of
`evaluate_attack` (lines 81-84). -/
def dist2 (a p : Vec3) : ℚ :=
  (a.x - p.x) * (a.x - p.x) + (a.y - p.y) * (a.y - p.y) +
    (a.z - p.z) * (a.z - p.z)

/-- Inner attacker scan of `evaluate_attack` (lines 74-88): for a target
point `p`, fold over the attacker sample points; the accumulator is the best
squared distance among visible attacker points (`none` = `inf`, i.e. the
point is not yet visible).  The scan breaks early when the best becomes
exactly 0 right after an update, as in the source. -/
def scanAttackers (sqrtQ : ℚ → ℚ) (solid_blocks : Option (Finset (ℤ × ℤ × ℤ)))
    (p : Vec3) : List Vec3 → Option ℚ → Option ℚ
  | [], best => best
  | a :: rest, best =>
    if is_visible sqrtQ a p none solid_blocks none then
      let d2 := dist2 a p
      match best with
      | none =>
        if d2 = 0 then some 0
        else scanAttackers sqrtQ solid_blocks p rest (some d2)
      | some b =>
        if d2 < b then
          (if d2 = 0 then some 0 else scanAttackers sqrtQ solid_blocks p rest (some d2))
        else scanAttackers sqrtQ solid_blocks p rest (some b)
    else scanAttackers sqrtQ solid_blocks p rest best

/-- Accumulator of the outer target-point loop of `evaluate_attack`
(lines 67-96): counts of visible and reachable-visible points, the global
best squared distance (`⊤` = `inf`) and the point attaining it. -/
structure ScanAcc where
  visible : ℕ
  reachable_visible : ℕ
  best2 : WithTop ℚ
  best_p : Option Vec3
deriving DecidableEq

/-- Outer target-point loop of `evaluate_attack` (lines 73-96).  For a
visible point (`visible_p` true, i.e. the attacker scan produced a finite
best squared distance) the counters and running minimum are updated as in
lines 90-96: `visible += 1`; `reachable_visible += 1` when the best squared
distance is within `reach2`; and `best2`/`best_p` are replaced when the best
squared distance strictly improves on `best2`. -/
def scanTargets (sqrtQ : ℚ → ℚ) (solid_blocks : Option (Finset (ℤ × ℤ × ℤ)))
    (att_pts : List Vec3) (reach2 : ℚ) : List Vec3 → ScanAcc → ScanAcc
  | [], acc => acc
  | p :: rest, acc =>
    match scanAttackers sqrtQ solid_blocks p att_pts none with
    | none => scanTargets sqrtQ solid_blocks att_pts reach2 rest acc
    | some best_for_p2 =>
      scanTargets sqrtQ solid_blocks att_pts reach2 rest
        ⟨acc.visible + 1,
         acc.reachable_visible + (if best_for_p2 ≤ reach2 then 1 else 0),
         (if (best_for_p2 : WithTop ℚ) < acc.best2 then (best_for_p2 : WithTop ℚ)
          else acc.best2),
         (if (best_for_p2 : WithTop ℚ) < acc.best2 then some p else acc.best_p)⟩

/-- `evaluate_attack` from core/reach/attack.py.  `sqrtQ` models `math.sqrt`
(used in `dvec.norm()` for the segment direction and in
`math.sqrt(best2)` for `min_dist`). -/
def evaluate_attack (sqrtQ : ℚ → ℚ) (attacker_eye : Vec3) (target : AABB)
    (solid_blocks : Option (Finset (ℤ × ℤ × ℤ))) (reach : ℚ)
    (surface_samples : ℤ) (attack_offset : ℚ) (attack_samples : ℤ) :
    AttackEval :=
  let closest := target.closest_point attacker_eye
  let dvec := closest - attacker_eye
  let dnorm := sqrtQ (dvec.dot dvec)
  let dirn := if dnorm = 0 then (⟨0, 0, 0⟩ : Vec3) else dvec * (1 / dnorm)
  let seg_start := attacker_eye
  let seg_end := attacker_eye + dirn * attack_offset
  let att_pts := sample_segment seg_start seg_end attack_samples
  let tgt_pts := sample_aabb_surface target surface_samples
  let total := tgt_pts.length
  if total = 0 then
    ⟨⊤, closest, false, false, 0, 0, 0, seg_start, seg_end⟩
  else
    let reach2 := reach * reach
    let acc := scanTargets sqrtQ solid_blocks att_pts reach2 tgt_pts ⟨0, 0, ⊤, none⟩
    let any_visible := decide (0 < acc.visible)
    let any_reachable := decide (0 < acc.reachable_visible)
    let visible_frac : ℚ := (acc.visible : ℚ) / (total : ℚ)
    let within_total : ℚ := (acc.reachable_visible : ℚ) / (total : ℚ)
    let within_visible : ℚ :=
      if 0 < acc.visible then (acc.reachable_visible : ℚ) / (acc.visible : ℚ) else 0
    let aim := acc.best_p.getD closest
    let min_dist : WithTop ℚ :=
      match acc.best2 with
      | some b2 => some (sqrtQ b2)
      | ⊤ => ⊤
    ⟨min_dist, aim, any_visible, any_reachable, visible_frac,
      within_visible, within_total, seg_start, seg_end⟩

/-! ### sim/jitter.py

`np.random.default_rng(seed)` is a deterministic stream of draws fixed by the
seed.  It is modelled by an abstract draw function
`gen : ℤ → ℕ → ℚ → ℚ → ℚ` taking (seed, draw index, low, high); a generator
instance is a (seed, next draw index) pair, and `rng.uniform(lo, hi)`
consumes one index. -/

/-- A pseudo-random generator instance: its seed and the index of the next
draw in the stream. -/
structure Rng where
  seed : ℤ
  idx : ℕ
deriving DecidableEq, Repr

/-- `rng.uniform(lo, hi)`: one draw from the stream, advancing the index. -/
def rngUniform (gen : ℤ → ℕ → ℚ → ℚ → ℚ) (r : Rng) (lo hi : ℚ) : ℚ × Rng :=
  (gen r.seed r.idx lo hi, ⟨r.seed, r.idx + 1⟩)

/-- `JitterSpec` from sim/jitter.py. -/
structure JitterSpec where
  jx : ℚ := 1/2
  jy : ℚ := 0
  jz : ℚ := 1/2
  seed : ℤ := 12345
deriving DecidableEq, Repr

/-- `JitterSpec.rng`: `np.random.default_rng(self.seed)` - a fresh generator
instance at index 0 of the stream determined by the seed. -/
def JitterSpec.rng (j : JitterSpec) : Rng := ⟨j.seed, 0⟩

/-- `JitterSpec.sample`: one uniform draw per axis with a positive range (a
zero or negative range consumes no draw and yields offset 0). -/
def JitterSpec.sample (gen : ℤ → ℕ → ℚ → ℚ → ℚ) (j : JitterSpec) (r : Rng) :
    Vec3 × Rng :=
  let px := if 0 < j.jx then rngUniform gen r (-j.jx) j.jx else ((0 : ℚ), r)
  let py := if 0 < j.jy then rngUniform gen px.2 (-j.jy) j.jy else ((0 : ℚ), px.2)
  let pz := if 0 < j.jz then rngUniform gen py.2 (-j.jz) j.jz else ((0 : ℚ), py.2)
  (⟨px.1, py.1, pz.1⟩, pz.2)

/-! ### sim/config.py and core/metrics/types.py -/

/-- `SimConfig` from sim/config.py. -/
structure SimConfig where
  reach : ℚ := 3
  trials : ℕ := 5000
  surface_samples : ℤ := 15
  attack_offset : ℚ := 4/5
  attack_samples : ℤ := 9
deriving DecidableEq, Repr

/-- `TrialResult` from core/metrics/types.py.  `min_dist` is `WithTop ℚ`
(`⊤` = `inf`), `surplus` is `WithBot ℚ` (`⊥` = `-inf`). -/
structure TrialResult where
  min_dist : WithTop ℚ
  reachable_any : Bool
  surplus : WithBot ℚ
  visible_frac : ℚ
  within_reach_of_visible : ℚ
  within_reach_of_total : ℚ
deriving DecidableEq

/-- `SummaryStats` from core/metrics/types.py.  `Option.none` models the
float NaN used as the "no data" sentinel; the `WithTop`/`WithBot` inside
model the infinities that `min_dist`/`surplus` can carry into the means. -/
structure SummaryStats where
  n : ℕ
  reach : ℚ
  hit_prob_any : Option ℚ
  mean_dist : Option (WithTop ℚ)
  mean_surplus : Option (WithBot ℚ)
  p10_dist : Option (WithTop ℚ)
  p50_dist : Option (WithTop ℚ)
  p90_dist : Option (WithTop ℚ)
  mean_visible_frac : Option ℚ
  mean_occluded_frac : Option ℚ
  mean_within_reach_of_visible : Option ℚ
  mean_within_reach_of_total : Option ℚ
deriving DecidableEq

/-! ### core/metrics/summary.py -/

/-- Mean of a list of rationals (`np.mean` on finite data). -/
def meanQ (l : List ℚ) : ℚ := l.sum / (l.length : ℚ)

/-- `np.mean` over values that may be `+inf`: infinite as soon as one entry
is infinite, otherwise the finite mean. -/
def meanTop (l : List (WithTop ℚ)) : WithTop ℚ :=
  l.sum.map fun s => s / (l.length : ℚ)

/-- `np.mean` over values that may be `-inf`. -/
def meanBot (l : List (WithBot ℚ)) : WithBot ℚ :=
  l.sum.map fun s => s / (l.length : ℚ)

/-- `np.percentile(xs, p)` with the default linear-interpolation method:
sort ascending, take position `p/100 * (len-1)`, and interpolate linearly
between the two neighbouring order statistics.  An interpolation involving an
infinite order statistic is infinite unless its weight is zero. -/
def percentileTop (l : List (WithTop ℚ)) (p : ℚ) : WithTop ℚ :=
  let s := l.insertionSort (· ≤ ·)
  let pos : ℚ := p / 100 * ((l.length : ℚ) - 1)
  let lo := (⌊pos⌋).toNat
  let hi := (⌈pos⌉).toNat
  match s.getD lo ⊤, s.getD hi ⊤ with
  | some a, some b => some (a + (pos - (⌊pos⌋ : ℚ)) * (b - a))
  | a, _ => if pos = (⌊pos⌋ : ℚ) then a else ⊤

/-- `summarize` from core/metrics/summary.py. -/
def summarize (results : List TrialResult) (reach : ℚ) : SummaryStats :=
  let n := results.length
  if n = 0 then
    ⟨0, reach, some 0, none, none, none, none, none, none, none, none, none⟩
  else
    let dists := results.map (·.min_dist)
    let surp := results.map (·.surplus)
    let hit_any : ℚ :=
      ((results.map fun r => if r.reachable_any then (1 : ℚ) else 0).sum) / (n : ℚ)
    let vis := results.map (·.visible_frac)
    let within_vis := results.map (·.within_reach_of_visible)
    let within_total := results.map (·.within_reach_of_total)
    ⟨n, reach, some hit_any,
      some (meanTop dists), some (meanBot surp),
      some (percentileTop dists 10), some (percentileTop dists 50),
      some (percentileTop dists 90),
      some (meanQ vis), some (meanQ (vis.map fun v => 1 - v)),
      some (meanQ within_vis), some (meanQ within_total)⟩

/-! ### scene/entities.py and scene/world.py -/

/-- `Player` from scene/entities.py (`float` attributes as `ℚ`). -/
structure Player where
  name : String
  pos : Vec3
  width : ℚ := 3/5
  height : ℚ := 9/5
  eye : ℚ := 81/50
  model : String := "Steve"
  geometry : String := "geometry.humanoid.custom"
deriving DecidableEq

/-- `Player.aabb_at`. -/
def Player.aabb_at (p : Player) (pos : Vec3) : AABB :=
  let hw := p.width / 2
  ⟨⟨pos.x - hw, pos.y, pos.z - hw⟩, ⟨pos.x + hw, pos.y + p.height, pos.z + hw⟩⟩

/-- `Player.eye_point_at`. -/
def Player.eye_point_at (p : Player) (pos : Vec3) : Vec3 :=
  ⟨pos.x, pos.y + p.eye, pos.z⟩

/-- `World` from scene/world.py, reduced to what the simulation reads: the
two players, the occupancy keys of the `blocks` dict (the per-key `Block`
payloads carry only a `manual` flag the core never reads), and `ground_y`. -/
structure World where
  player_a : Player
  player_b : Player
  blocks : Finset (ℤ × ℤ × ℤ)
  ground_y : ℤ := 0
deriving DecidableEq

/-- `World.solid_block_keys`: the key set of the blocks dict. -/
def World.solid_block_keys (w : World) : Finset (ℤ × ℤ × ℤ) := w.blocks

/-! ### sim/runner.py

The `stop_flag` callable is stateful from the core's point of view; it is
modelled by a pure function of its query index, with the query counter
threaded explicitly.  Progress reporting (lines 35 and 73-75 of
sim/runner.py) is output-only - it reads no state the loop later uses and
affects no return value - and is omitted from the embedding. -/

/-- One `stop_flag is not None and stop_flag()` query: the answer and the
advanced query counter. -/
def checkStop (stop : Option (ℕ → Bool)) (i : ℕ) : Bool × ℕ :=
  match stop with
  | none => (false, i)
  | some f => (f i, i + 1)

/-- The trial loop of `_one_direction` (lines 37-71): remaining trial count,
generator state and stop-query counter are explicit.  Returns the result
list together with the final generator and counter states. -/
def oneDirGo (gen : ℤ → ℕ → ℚ → ℚ → ℚ) (sqrtQ : ℚ → ℚ) (jitter : JitterSpec)
    (cfg : SimConfig) (attacker defender : Player)
    (solids : Finset (ℤ × ℤ × ℤ)) (stop : Option (ℕ → Bool)) :
    ℕ → Rng → ℕ → List TrialResult × Rng × ℕ
  | 0, rng, sIdx => ([], rng, sIdx)
  | rem + 1, rng, sIdx =>
    let c := checkStop stop sIdx
    if c.1 then ([], rng, c.2)
    else
      let sa := JitterSpec.sample gen jitter rng
      let sb := JitterSpec.sample gen jitter sa.2
      let a_pos : Vec3 :=
        ⟨attacker.pos.x + sa.1.x, attacker.pos.y + sa.1.y, attacker.pos.z + sa.1.z⟩
      let b_pos : Vec3 :=
        ⟨defender.pos.x + sb.1.x, defender.pos.y + sb.1.y, defender.pos.z + sb.1.z⟩
      let attacker_eye := attacker.eye_point_at a_pos
      let target_box := defender.aabb_at b_pos
      let ev := evaluate_attack sqrtQ attacker_eye target_box (some solids)
        cfg.reach cfg.surface_samples cfg.attack_offset cfg.attack_samples
      let surplus : WithBot ℚ :=
        match ev.min_dist with
        | some md => some (cfg.reach - md)
        | ⊤ => ⊥
      let res : TrialResult :=
        ⟨ev.min_dist, ev.any_reachable, surplus, ev.visible_frac,
          ev.within_reach_of_visible, ev.within_reach_of_total⟩
      let r := oneDirGo gen sqrtQ jitter cfg attacker defender solids stop rem sb.2 c.2
      (res :: r.1, r.2.1, r.2.2)

/-- `_one_direction` from sim/runner.py: creates a fresh generator from the
jitter seed (line 22: `rng = jitter.rng()`), resolves the attacker/defender
players from the direction names, and runs the trial loop. -/
def one_direction (gen : ℤ → ℕ → ℚ → ℚ → ℚ) (sqrtQ : ℚ → ℚ) (world : World)
    (attacker_name defender_name : String) (jitter : JitterSpec)
    (cfg : SimConfig) (stop : Option (ℕ → Bool)) (sIdx : ℕ) :
    List TrialResult × Rng × ℕ :=
  let rng := jitter.rng
  let attacker := if attacker_name = "A" then world.player_a else world.player_b
  let defender := if defender_name = "B" then world.player_b else world.player_a
  let solids := world.solid_block_keys
  oneDirGo gen sqrtQ jitter cfg attacker defender solids stop cfg.trials rng sIdx

/-- `run_sim` from sim/runner.py; returns `(stats_ab, stats_ba, res_ab,
res_ba)`. -/
def run_sim (gen : ℤ → ℕ → ℚ → ℚ → ℚ) (sqrtQ : ℚ → ℚ) (world : World)
    (jitter : JitterSpec) (cfg : SimConfig) (stop : Option (ℕ → Bool)) :
    SummaryStats × SummaryStats × List TrialResult × List TrialResult :=
  let r1 := one_direction gen sqrtQ world "A" "B" jitter cfg stop 0
  let stats_ab := summarize r1.1 cfg.reach
  let c := checkStop stop r1.2.2
  if c.1 then (stats_ab, summarize [] cfg.reach, r1.1, [])
  else
    let r2 := one_direction gen sqrtQ world "B" "A" jitter cfg stop c.2
    (stats_ab, summarize r2.1 cfg.reach, r1.1, r2.1)

/-- Modelled from the spec: the spec's trial runner uses "a single jitter
generator stream shared sequentially across both directions (A-direction
trials consume generator draws first, then B-direction)".  This variant
creates one generator instance from the seed and threads its state from the
A-direction loop into the B-direction loop; it exists to be compared with
`run_sim`, whose `_one_direction` re-creates the generator per direction. -/
def run_sim_spec_shared (gen : ℤ → ℕ → ℚ → ℚ → ℚ) (sqrtQ : ℚ → ℚ)
    (world : World) (jitter : JitterSpec) (cfg : SimConfig)
    (stop : Option (ℕ → Bool)) :
    SummaryStats × SummaryStats × List TrialResult × List TrialResult :=
  let rng0 := jitter.rng
  let r1 := oneDirGo gen sqrtQ jitter cfg world.player_a world.player_b
    world.solid_block_keys stop cfg.trials rng0 0
  let stats_ab := summarize r1.1 cfg.reach
  let c := checkStop stop r1.2.2
  if c.1 then (stats_ab, summarize [] cfg.reach, r1.1, [])
  else
    let r2 := oneDirGo gen sqrtQ jitter cfg world.player_b world.player_a
      world.solid_block_keys stop cfg.trials r1.2.1 c.2
    (stats_ab, summarize r2.1 cfg.reach, r1.1, r2.1)

/-! ### Concrete instances used by witnesses and counterexamples -/

/-- A concrete stand-in for `math.sqrt` (the identity); the theorems below
that depend on square-root behaviour state their needs as hypotheses. -/
def sqrtId : ℚ → ℚ := fun q => q

/-- A stand-in for `math.sqrt` that returns 0 everywhere, making the DDA
start-point nudge vanish exactly. -/
def sqrtZero : ℚ → ℚ := fun _ => 0

/-- A stand-in for `math.sqrt` that is correct about the threshold 3: it
answers below 3 exactly on squared inputs of at most 9. -/
def sqrtStep9 : ℚ → ℚ := fun a => if a ≤ 9 then 0 else 4

/-- A concrete draw stream that is not affine in the index, so restarting it
is observably different from continuing it. -/
def genSteps : ℤ → ℕ → ℚ → ℚ → ℚ := fun _ idx _ _ =>
  if idx = 0 then 0 else if idx = 1 then 1/4 else if idx = 2 then 1/2 else -(1/2)

/-- Player A of the two-player example world, at the origin. -/
def playerA0 : Player := { name := "A", pos := ⟨0, 0, 0⟩ }

/-- Player B of the two-player example world, 2 units away on the x axis. -/
def playerB0 : Player := { name := "B", pos := ⟨2, 0, 0⟩ }

/-- A block-free world with the two example players. -/
def worldAB : World := ⟨playerA0, playerB0, ∅, 0⟩

/-- A world whose two player slots hold the identical player value. -/
def worldSame : World := ⟨playerA0, playerA0, ∅, 0⟩

/-- Jitter on the x axis only, seed 0. -/
def jitterX : JitterSpec := ⟨1, 0, 0, 0⟩

/-- A one-trial configuration with one attacker sample and resolution-1
surface sampling. -/
def cfgOne : SimConfig := ⟨3, 1, 1, 4/5, 1⟩

/-- A two-trial configuration, otherwise like `cfgOne`. -/
def cfgTwo : SimConfig := ⟨3, 2, 1, 4/5, 1⟩

/-- An attacker eye buried inside the solid voxel at the origin. -/
def eyeInBlock : Vec3 := ⟨1/2, 1/2, 1/2⟩

/-- The unit box at the origin, used as a target around `eyeInBlock`. -/
def unitBox : AABB := ⟨⟨0, 0, 0⟩, ⟨1, 1, 1⟩⟩

/-- The solid voxel set containing exactly the origin cell. -/
def originCell : Finset (ℤ × ℤ × ℤ) := {(0, 0, 0)}

/-- A degenerate box (a single point), whose surface sample is one point. -/
def pointBox : AABB := ⟨⟨0, 0, 0⟩, ⟨0, 0, 0⟩⟩

/-- A cube whose extent `2^-20` is not a whole number of microunits, so its
quantized dimensions differ from its real dimensions. -/
def cubeTiny : AABB := ⟨⟨0, 0, 0⟩, ⟨1/1048576, 1/1048576, 1/1048576⟩⟩

/-- Start of the exactly diagonal example segment. -/
def diagP0 : Vec3 := ⟨1/4, 1/4, 1/4⟩

/-- End of the exactly diagonal example segment. -/
def diagP1 : Vec3 := ⟨5/4, 5/4, 5/4⟩

/-- A DDA state whose traversal parameter has already passed 1. -/
def ddaStateDone : DdaState := ⟨0, 0, 0, 0, 0, 0, ⊤, ⊤, ⊤, ⊤, ⊤, ⊤, (2 : ℚ)⟩

/-- A well-formed DDA state in mid-traversal, with all three axes tied. -/
def ddaStateTied : DdaState :=
  ⟨0, 0, 0, 1, 1, 1, (1 : ℚ), (1 : ℚ), (1 : ℚ), (1 : ℚ), (1 : ℚ), (1 : ℚ), (0 : ℚ)⟩

/-! ## Theorems -/

/-! ### Surface sampling (claims C5 and C7) -/

theorem dedupByKey_subset (l : List Vec3) (seen : List (ℤ × ℤ × ℤ)) (p : Vec3)
    (hp : p ∈ dedupByKey l seen) : p ∈ l := by
  induction l generalizing seen with
  | nil => simp [dedupByKey] at hp
  | cons q rest ih =>
    unfold dedupByKey at hp
    by_cases h : quantKey q ∈ seen
    · simp only [if_pos h] at hp
      exact List.mem_cons_of_mem _ (ih _ hp)
    · simp only [if_neg h, List.mem_cons] at hp
      rcases hp with rfl | hp
      · exact List.mem_cons_self _ _
      · exact List.mem_cons_of_mem _ (ih _ hp)

theorem dedupByKey_not_seen (l : List Vec3) (seen : List (ℤ × ℤ × ℤ)) (p : Vec3)
    (hp : p ∈ dedupByKey l seen) : quantKey p ∉ seen := by
  induction l generalizing seen with
  | nil => simp [dedupByKey] at hp
  | cons q rest ih =>
    unfold dedupByKey at hp
    by_cases h : quantKey q ∈ seen
    · simp only [if_pos h] at hp
      exact ih _ hp
    · simp only [if_neg h, List.mem_cons] at hp
      rcases hp with rfl | hp
      · exact h
      · have := ih _ hp
        intro hmem
        exact this (List.mem_cons_of_mem _ hmem)

theorem dedupByKey_pairwise (l : List Vec3) (seen : List (ℤ × ℤ × ℤ)) :
    (dedupByKey l seen).Pairwise fun p q => quantKey p ≠ quantKey q := by
  induction l generalizing seen with
  | nil => simp [dedupByKey]
  | cons q rest ih =>
    unfold dedupByKey
    by_cases h : quantKey q ∈ seen
    · simpa [if_pos h] using ih seen
    · simp only [if_neg h]
      refine List.Pairwise.cons ?_ (ih _)
      intro p hp
      have := dedupByKey_not_seen _ _ _ hp
      intro he
      exact this (he ▸ List.mem_cons_self _ _)

theorem mem_faceCandidates {sx sy sz : ℚ} {xs ys zs : List ℚ} {o : Vec3}
    (ho : o ∈ faceCandidates sx sy sz xs ys zs) :
    o.x = 0 ∨ o.x = sx ∨ o.y = 0 ∨ o.y = sy ∨ o.z = 0 ∨ o.z = sz := by
  unfold faceCandidates at ho
  simp only [List.mem_append, List.mem_flatMap, List.mem_cons,
    List.mem_singleton, List.not_mem_nil, or_false] at ho
  rcases ho with (⟨y, _, z, _, h⟩ | ⟨x, _, z, _, h⟩) | ⟨x, _, y, _, h⟩ <;>
    rcases h with rfl | rfl <;> simp

theorem surface_offsets_boundary (sx_q sy_q sz_q n : ℤ) (o : Vec3)
    (ho : o ∈ surface_offsets_cached sx_q sy_q sz_q n) :
    o.x = 0 ∨ o.x = (sx_q : ℚ) * (1/10^6) ∨ o.y = 0 ∨ o.y = (sy_q : ℚ) * (1/10^6) ∨
      o.z = 0 ∨ o.z = (sz_q : ℚ) * (1/10^6) := by
  unfold surface_offsets_cached at ho
  exact mem_faceCandidates (dedupByKey_subset _ _ _ ho)

theorem surface_offsets_pairwise (sx_q sy_q sz_q n : ℤ) :
    (surface_offsets_cached sx_q sy_q sz_q n).Pairwise
      fun p q => quantKey p ≠ quantKey q := by
  unfold surface_offsets_cached
  exact dedupByKey_pairwise _ _

theorem sample_aabb_surface_mem (box : AABB) (n : ℤ) (p : Vec3)
    (hp : p ∈ sample_aabb_surface box n) :
    ∃ o ∈ surface_offsets_cached (pyRound ((box.mx.x - box.mn.x) * 10^6))
        (pyRound ((box.mx.y - box.mn.y) * 10^6))
        (pyRound ((box.mx.z - box.mn.z) * 10^6)) (max 1 n),
      p = ⟨box.mn.x + o.x, box.mn.y + o.y, box.mn.z + o.z⟩ := by
  unfold sample_aabb_surface at hp
  simp only [List.mem_map] at hp
  obtain ⟨o, ho, rfl⟩ := hp
  exact ⟨o, ho, rfl⟩

/-- C5 (amended): every point returned by `sample_aabb_surface` lies on the
boundary of the microunit-quantized box (same min corner, dimensions rounded
to whole microunits - the source samples the quantized dimensions, so for a
box whose extents are not whole microunits the max faces shift by the
quantization error), and the returned points have pairwise distinct microunit
quantization keys relative to the min corner, hence no two coincide within
the quantization tolerance. -/
theorem c5_surface_on_quantized_boundary_nodup (box : AABB) (n : ℤ) :
    (∀ p ∈ sample_aabb_surface box n,
      p.x = box.mn.x ∨ p.x = box.mn.x + (pyRound ((box.mx.x - box.mn.x) * 10^6) : ℚ) * (1/10^6) ∨
      p.y = box.mn.y ∨ p.y = box.mn.y + (pyRound ((box.mx.y - box.mn.y) * 10^6) : ℚ) * (1/10^6) ∨
      p.z = box.mn.z ∨ p.z = box.mn.z + (pyRound ((box.mx.z - box.mn.z) * 10^6) : ℚ) * (1/10^6)) ∧
    (sample_aabb_surface box n).Pairwise
      fun p q => quantKey (p - box.mn) ≠ quantKey (q - box.mn) := by
  constructor
  · intro p hp
    obtain ⟨o, ho, rfl⟩ := sample_aabb_surface_mem box n p hp
    rcases surface_offsets_boundary _ _ _ _ _ ho with h | h | h | h | h | h <;>
      simp [h]
  · unfold sample_aabb_surface
    rw [List.pairwise_map]
    refine (surface_offsets_pairwise _ _ _ _).imp ?_
    intro a b hab
    have key : ∀ v : Vec3,
        (⟨box.mn.x + v.x, box.mn.y + v.y, box.mn.z + v.z⟩ - box.mn : Vec3) = v := by
      intro v
      obtain ⟨vx, vy, vz⟩ := v
      show (⟨box.mn.x + vx - box.mn.x, box.mn.y + vy - box.mn.y,
        box.mn.z + vz - box.mn.z⟩ : Vec3) = ⟨vx, vy, vz⟩
      rw [add_sub_cancel_left, add_sub_cancel_left, add_sub_cancel_left]
    rw [key a, key b]
    exact hab

/-- C5 helper: the surface offsets of the microunit-quantized `cubeTiny`
(quantized dimensions one microunit each, resolution 1): face centers of the
six faces, with the two coinciding-center duplicates collapsed by the
microunit dedup. -/
theorem surface_offsets_cubeTiny : surface_offsets_cached 1 1 1 1 =
    [⟨0, 1/2000000, 1/2000000⟩, ⟨1/1000000, 1/2000000, 1/2000000⟩,
     ⟨1/2000000, 1/1000000, 1/2000000⟩, ⟨1/2000000, 1/2000000, 1/1000000⟩] := by
  have k0 : quantKey ⟨0, 1/2000000, 1/2000000⟩ = (0, 0, 0) := by with_unfolding_all decide
  have k1 : quantKey ⟨1/1000000, 1/2000000, 1/2000000⟩ = (1, 0, 0) := by with_unfolding_all decide
  have k2 : quantKey ⟨1/2000000, 0, 1/2000000⟩ = (0, 0, 0) := by with_unfolding_all decide
  have k3 : quantKey ⟨1/2000000, 1/1000000, 1/2000000⟩ = (0, 1, 0) := by with_unfolding_all decide
  have k4 : quantKey ⟨1/2000000, 1/2000000, 0⟩ = (0, 0, 0) := by with_unfolding_all decide
  have k5 : quantKey ⟨1/2000000, 1/2000000, 1/1000000⟩ = (0, 0, 1) := by with_unfolding_all decide
  norm_num [surface_offsets_cached, count_for, linspace_01, faceCandidates]
  norm_num [dedupByKey, k0, k1, k2, k3, k4, k5]

/-- C5 witness: the single surface sample of the degenerate point box lies on
its (quantized) boundary, as the theorem asserts. -/
theorem c5_witness :
    ((⟨0, 0, 0⟩ : Vec3).x = pointBox.mn.x ∨
      (⟨0, 0, 0⟩ : Vec3).x = pointBox.mn.x +
        (pyRound ((pointBox.mx.x - pointBox.mn.x) * 10^6) : ℚ) * (1/10^6) ∨
      (⟨0, 0, 0⟩ : Vec3).y = pointBox.mn.y ∨
      (⟨0, 0, 0⟩ : Vec3).y = pointBox.mn.y +
        (pyRound ((pointBox.mx.y - pointBox.mn.y) * 10^6) : ℚ) * (1/10^6) ∨
      (⟨0, 0, 0⟩ : Vec3).z = pointBox.mn.z ∨
      (⟨0, 0, 0⟩ : Vec3).z = pointBox.mn.z +
        (pyRound ((pointBox.mx.z - pointBox.mn.z) * 10^6) : ℚ) * (1/10^6)) :=
  (c5_surface_on_quantized_boundary_nodup pointBox 1).1 ⟨0, 0, 0⟩
    (by with_unfolding_all decide)

/-- C5 counterexample: for the cube `[0, 2^-20]^3` at resolution 1, the
returned face-center point `(1/1000000, 1/2000000, 1/2000000)` has no
coordinate equal to a min- or max-face coordinate of the box (its x sits at
the quantized face `1e-6`, not at `2^-20`, and its y and z sit at the center
of the quantized extent), refuting the claim that every returned point has a
coordinate on a face of the box itself. -/
theorem c5_cex :
    (⟨1/1000000, 1/2000000, 1/2000000⟩ : Vec3) ∈ sample_aabb_surface cubeTiny 1 ∧
    ¬((1/1000000 : ℚ) = cubeTiny.mn.x ∨ (1/1000000 : ℚ) = cubeTiny.mx.x ∨
      (1/2000000 : ℚ) = cubeTiny.mn.y ∨ (1/2000000 : ℚ) = cubeTiny.mx.y ∨
      (1/2000000 : ℚ) = cubeTiny.mn.z ∨ (1/2000000 : ℚ) = cubeTiny.mx.z) := by
  constructor
  · have hq : pyRound ((cubeTiny.mx.x - cubeTiny.mn.x) * 10^6) = 1 := by
      with_unfolding_all decide
    have hq2 : pyRound ((cubeTiny.mx.y - cubeTiny.mn.y) * 10^6) = 1 := by
      with_unfolding_all decide
    have hq3 : pyRound ((cubeTiny.mx.z - cubeTiny.mn.z) * 10^6) = 1 := by
      with_unfolding_all decide
    simp only [sample_aabb_surface, hq, hq2, hq3]
    rw [show (max 1 (1:ℤ)) = 1 from rfl, surface_offsets_cubeTiny]
    refine List.mem_map.mpr ⟨⟨1/1000000, 1/2000000, 1/2000000⟩, by simp, ?_⟩
    show (⟨cubeTiny.mn.x + 1/1000000, cubeTiny.mn.y + 1/2000000,
      cubeTiny.mn.z + 1/2000000⟩ : Vec3) = ⟨1/1000000, 1/2000000, 1/2000000⟩
    norm_num [cubeTiny]
  · norm_num [cubeTiny]

/-- C7 (amended): for every reference resolution `n ≥ 2` an axis whose
extent is above the degeneracy threshold `1e-12` receives a sample count of
at least 2, and an axis with degenerate extent receives 1 for every `n`; at
`n ≤ 1` (reference resolution 1), however, every axis receives count 1
regardless of its extent. -/
theorem c7_count_for_bounds (n : ℤ) (max_dim dim : ℚ) :
    (2 ≤ n → 1/10^12 < |dim| → 2 ≤ count_for n max_dim dim) ∧
    (|dim| ≤ 1/10^12 → count_for n max_dim dim = 1) ∧
    (n ≤ 1 → count_for n max_dim dim = 1) := by
  refine ⟨?_, ?_, ?_⟩
  · intro hn hdim
    unfold count_for
    rw [if_neg (by omega), if_neg (not_le.mpr hdim)]
    exact le_max_left _ _
  · intro hdim
    unfold count_for
    by_cases hn : n ≤ 1
    · rw [if_pos hn]
    · rw [if_neg hn, if_pos hdim]
  · intro hn
    unfold count_for
    rw [if_pos hn]

/-- C7 witness: at resolution 3 an axis of extent 1 (with longest extent 1)
gets at least 2 samples, a degenerate axis gets 1, and at resolution 1 any
axis gets 1. -/
theorem c7_witness :
    2 ≤ count_for 3 1 1 ∧ count_for 3 1 0 = 1 ∧ count_for 1 1 1 = 1 :=
  ⟨(c7_count_for_bounds 3 1 1).1 (by decide) (by with_unfolding_all decide),
    (c7_count_for_bounds 3 1 0).2.1 (by with_unfolding_all decide),
    (c7_count_for_bounds 1 1 1).2.2 (by decide)⟩

/-- C7 counterexample: at reference resolution `n = 1` an axis of extent 1 -
far above the degeneracy threshold - receives a sample count of 1, refuting
the claim that every non-negligible axis receives at least 2 for every
resolution. -/
theorem c7_cex : (1/10^12 : ℚ) < |(1 : ℚ)| ∧ ¬ 2 ≤ count_for 1 1 1 := by
  with_unfolding_all decide

/-! ### Voxel DDA (claims C6 and C10) -/

theorem ddaChoose_eq_x (tx ty tz : WithTop ℚ) :
    ddaChoose tx ty tz = Axis.x ↔ tx < ty ∧ tx < tz := by
  unfold ddaChoose
  split_ifs with h1 h2 h3
  · exact iff_of_true rfl ⟨h1, h2⟩
  · exact iff_of_false (by decide) fun h => absurd h.2 h2
  · exact iff_of_false (by decide) fun h => absurd h.1 h1
  · exact iff_of_false (by decide) fun h => absurd h.1 h1

theorem ddaChoose_eq_y (tx ty tz : WithTop ℚ) :
    ddaChoose tx ty tz = Axis.y ↔ ty ≤ tx ∧ ty < tz := by
  unfold ddaChoose
  split_ifs with h1 h2 h3
  · exact iff_of_false (by decide) fun h => absurd h1 (not_lt.mpr h.1)
  · exact iff_of_false (by decide) fun h => absurd h1 (not_lt.mpr h.1)
  · exact iff_of_true rfl ⟨le_of_not_lt h1, h3⟩
  · exact iff_of_false (by decide) fun h => absurd h.2 h3

theorem ddaChoose_eq_z (tx ty tz : WithTop ℚ) :
    ddaChoose tx ty tz = Axis.z ↔ tz ≤ tx ∧ tz ≤ ty := by
  unfold ddaChoose
  split_ifs with h1 h2 h3
  · exact iff_of_false (by decide) fun h => absurd (lt_of_lt_of_le h2 h.1) (lt_irrefl tx)
  · exact iff_of_true rfl ⟨le_of_not_lt h2, (le_of_not_lt h2).trans h1.le⟩
  · exact iff_of_false (by decide) fun h => absurd (lt_of_lt_of_le h3 h.2) (lt_irrefl ty)
  · exact iff_of_true rfl ⟨(le_of_not_lt h3).trans (le_of_not_lt h1), le_of_not_lt h3⟩

theorem ddaStep_t (s : DdaState) :
    (ddaStep s).t = min s.tMaxX (min s.tMaxY s.tMaxZ) := by
  rcases hc : ddaChoose s.tMaxX s.tMaxY s.tMaxZ with _ | _ | _
  · obtain ⟨h1, h2⟩ := (ddaChoose_eq_x _ _ _).mp hc
    simp only [ddaStep, hc]
    exact (min_eq_left (le_min h1.le h2.le)).symm
  · obtain ⟨h1, h2⟩ := (ddaChoose_eq_y _ _ _).mp hc
    simp only [ddaStep, hc]
    rw [min_eq_left h2.le, min_eq_right h1]
  · obtain ⟨h1, h2⟩ := (ddaChoose_eq_z _ _ _).mp hc
    simp only [ddaStep, hc]
    rw [min_eq_right h2, min_eq_right h1]

theorem withTop_le_one_cases (t : WithTop ℚ) (h : t ≤ (1 : WithTop ℚ)) :
    ∃ m : ℚ, t = (m : WithTop ℚ) ∧ m ≤ 1 := by
  induction t using WithTop.recTopCoe with
  | top => exact absurd h (by simp)
  | coe m => exact ⟨m, rfl, by exact_mod_cast h⟩

theorem axisWF_delta_pos (t d : WithTop ℚ) (h : AxisWF t d) (ht : t ≠ ⊤) :
    ∃ q : ℚ, d = (q : WithTop ℚ) ∧ 0 < q := by
  rcases h with ⟨h1, _⟩ | ⟨h1, h2⟩
  · exact absurd h1 ht
  · induction d using WithTop.recTopCoe with
    | top => exact absurd rfl h1
    | coe q => exact ⟨q, rfl, by exact_mod_cast h2⟩

theorem axisMeasure_coe (m d : ℚ) :
    axisMeasure (m : WithTop ℚ) (d : WithTop ℚ) = (⌈(1 + d - m) / d⌉).toNat :=
  rfl

theorem axisMeasure_bump (m d : ℚ) (hd : 0 < d) (hm : m ≤ 1) :
    axisMeasure ((m : WithTop ℚ) + (d : WithTop ℚ)) (d : WithTop ℚ) <
      axisMeasure (m : WithTop ℚ) (d : WithTop ℚ) := by
  rw [show ((m : WithTop ℚ) + (d : WithTop ℚ)) = ((m + d : ℚ) : WithTop ℚ) by
    exact_mod_cast rfl]
  rw [axisMeasure_coe, axisMeasure_coe]
  have h1 : (1 + d - m) / d = (1 + d - (m + d)) / d + 1 := by
    field_simp
    ring
  have h2 : (0 : ℚ) ≤ (1 + d - (m + d)) / d := by
    apply div_nonneg _ hd.le
    linarith
  have h3 : 0 ≤ ⌈(1 + d - (m + d)) / d⌉ := Int.ceil_nonneg h2
  rw [h1, Int.ceil_add_one]
  omega

theorem axisWF_bump (tmax tdelta : WithTop ℚ) (h : AxisWF tmax tdelta) :
    AxisWF (tmax + tdelta) tdelta := by
  rcases h with ⟨h1, h2⟩ | ⟨h1, h2⟩
  · exact Or.inl ⟨by simp [h1, h2], h2⟩
  · exact Or.inr ⟨h1, h2⟩

theorem stateWF_step (s : DdaState) (h : StateWF s) : StateWF (ddaStep s) := by
  obtain ⟨hx, hy, hz⟩ := h
  rcases hc : ddaChoose s.tMaxX s.tMaxY s.tMaxZ with _ | _ | _ <;>
    simp only [ddaStep, hc]
  · exact ⟨axisWF_bump _ _ hx, hy, hz⟩
  · exact ⟨hx, axisWF_bump _ _ hy, hz⟩
  · exact ⟨hx, hy, axisWF_bump _ _ hz⟩

theorem ddaLoopF_mono (solids : Finset (ℤ × ℤ × ℤ)) :
    ∀ (n : ℕ) (s : DdaState) (b : Bool), ddaLoopF solids n s = some b →
      ddaLoopF solids (n + 1) s = some b := by
  intro n
  induction n with
  | zero => intro s b h; simp [ddaLoopF] at h
  | succ n ih =>
    intro s b h
    unfold ddaLoopF at h ⊢
    by_cases ht : s.t ≤ (1 : WithTop ℚ)
    · simp only [if_pos ht] at h ⊢
      by_cases hs : (s.vx, s.vy, s.vz) ∈ solids
      · simpa [hs] using h
      · simp only [if_neg hs] at h ⊢
        exact ih _ _ h
    · simpa [ht] using h

theorem ddaLoopF_mono_le (solids : Finset (ℤ × ℤ × ℤ)) (n m : ℕ) (hnm : n ≤ m)
    (s : DdaState) (b : Bool) (h : ddaLoopF solids n s = some b) :
    ddaLoopF solids m s = some b := by
  induction hnm with
  | refl => exact h
  | step _ ih => exact ddaLoopF_mono solids _ s b ih

theorem ddaMeasure_step_lt (s : DdaState) (hwf : StateWF s)
    (hmin : min s.tMaxX (min s.tMaxY s.tMaxZ) ≤ (1 : WithTop ℚ)) :
    ddaMeasure (ddaStep s) < ddaMeasure s := by
  obtain ⟨hwx, hwy, hwz⟩ := hwf
  rcases hc : ddaChoose s.tMaxX s.tMaxY s.tMaxZ with _ | _ | _
  · obtain ⟨h1, h2⟩ := (ddaChoose_eq_x _ _ _).mp hc
    have hmx : s.tMaxX ≤ (1 : WithTop ℚ) := by
      rw [min_eq_left (le_min h1.le h2.le)] at hmin
      exact hmin
    obtain ⟨m, hm, hm1⟩ := withTop_le_one_cases _ hmx
    obtain ⟨d, hd, hd0⟩ := axisWF_delta_pos _ _ hwx (by simp [hm])
    simp only [ddaStep, hc, ddaMeasure]
    have := axisMeasure_bump m d hd0 hm1
    rw [hm, hd]
    omega
  · obtain ⟨h1, h2⟩ := (ddaChoose_eq_y _ _ _).mp hc
    have hmy : s.tMaxY ≤ (1 : WithTop ℚ) := by
      rw [min_eq_left h2.le, min_eq_right h1] at hmin
      exact hmin
    obtain ⟨m, hm, hm1⟩ := withTop_le_one_cases _ hmy
    obtain ⟨d, hd, hd0⟩ := axisWF_delta_pos _ _ hwy (by simp [hm])
    simp only [ddaStep, hc, ddaMeasure]
    have := axisMeasure_bump m d hd0 hm1
    rw [hm, hd]
    omega
  · obtain ⟨h1, h2⟩ := (ddaChoose_eq_z _ _ _).mp hc
    have hmz : s.tMaxZ ≤ (1 : WithTop ℚ) := by
      rw [min_eq_right h2, min_eq_right h1] at hmin
      exact hmin
    obtain ⟨m, hm, hm1⟩ := withTop_le_one_cases _ hmz
    obtain ⟨d, hd, hd0⟩ := axisWF_delta_pos _ _ hwz (by simp [hm])
    simp only [ddaStep, hc, ddaMeasure]
    have := axisMeasure_bump m d hd0 hm1
    rw [hm, hd]
    omega

theorem ddaLoopF_exits (solids : Finset (ℤ × ℤ × ℤ)) (s : DdaState)
    (ht : ¬ s.t ≤ (1 : WithTop ℚ)) (n : ℕ) :
    ddaLoopF solids (n + 1) s = some false := by
  unfold ddaLoopF
  simp [ht]

theorem ddaLoopF_total (solids : Finset (ℤ × ℤ × ℤ)) :
    ∀ (k : ℕ) (s : DdaState), StateWF s → ddaMeasure s ≤ k →
      ddaLoopF solids (ddaMeasure s + 2) s ≠ none := by
  intro k
  induction k with
  | zero =>
    intro s hwf hk
    rw [show ddaMeasure s + 2 = (ddaMeasure s + 1) + 1 from rfl]
    unfold ddaLoopF
    by_cases ht : s.t ≤ (1 : WithTop ℚ)
    · simp only [if_pos ht]
      by_cases hs : (s.vx, s.vy, s.vz) ∈ solids
      · simp [hs]
      · simp only [if_neg hs]
        by_cases hmin : min s.tMaxX (min s.tMaxY s.tMaxZ) ≤ (1 : WithTop ℚ)
        · have := ddaMeasure_step_lt s hwf hmin
          omega
        · have ht' : ¬ (ddaStep s).t ≤ (1 : WithTop ℚ) := by
            rw [ddaStep_t]
            exact hmin
          rw [ddaLoopF_exits solids _ ht' (ddaMeasure s)]
          simp
    · simp [ht]
  | succ k ih =>
    intro s hwf hk
    rw [show ddaMeasure s + 2 = (ddaMeasure s + 1) + 1 from rfl]
    unfold ddaLoopF
    by_cases ht : s.t ≤ (1 : WithTop ℚ)
    · simp only [if_pos ht]
      by_cases hs : (s.vx, s.vy, s.vz) ∈ solids
      · simp [hs]
      · simp only [if_neg hs]
        by_cases hmin : min s.tMaxX (min s.tMaxY s.tMaxZ) ≤ (1 : WithTop ℚ)
        · have hlt := ddaMeasure_step_lt s hwf hmin
          have hwf' := stateWF_step s hwf
          have hih := ih (ddaStep s) hwf' (by omega)
          intro hnone
          apply hih
          rcases h : ddaLoopF solids (ddaMeasure (ddaStep s) + 2) (ddaStep s) with _ | b
          · rfl
          · have := ddaLoopF_mono_le solids (ddaMeasure (ddaStep s) + 2)
              (ddaMeasure s + 1) (by omega) (ddaStep s) b h
            rw [this] at hnone
            exact absurd hnone (by simp)
        · have ht' : ¬ (ddaStep s).t ≤ (1 : WithTop ℚ) := by
            rw [ddaStep_t]
            exact hmin
          rw [ddaLoopF_exits solids _ ht' (ddaMeasure s)]
          simp
    · simp [ht]

theorem ddaInit_tDeltaX_pos (sqrtQ : ℚ → ℚ) (p0 p1 : Vec3) (h : p1.x - p0.x ≠ 0) :
    (ddaInit sqrtQ p0 p1).tDeltaX ≠ ⊤ ∧ (0 : WithTop ℚ) < (ddaInit sqrtQ p0 p1).tDeltaX := by
  have hstep : (if 0 < p1.x - p0.x then (1 : ℤ) else if p1.x - p0.x < 0 then -1 else 0) ≠ 0 := by
    rcases lt_trichotomy (p1.x - p0.x) 0 with hlt | heq | hgt
    · simp [not_lt.mpr hlt.le, hlt]
    · exact absurd heq h
    · simp [hgt]
  show (if _ ≠ (0 : ℤ) then _ else _) ≠ ⊤ ∧ (0 : WithTop ℚ) < (if _ ≠ (0 : ℤ) then _ else _)
  rw [if_pos hstep]
  refine ⟨WithTop.coe_ne_top, ?_⟩
  exact WithTop.coe_lt_coe.mpr (one_div_pos.mpr (abs_pos.mpr h))

theorem ddaInit_tDeltaY_pos (sqrtQ : ℚ → ℚ) (p0 p1 : Vec3) (h : p1.y - p0.y ≠ 0) :
    (ddaInit sqrtQ p0 p1).tDeltaY ≠ ⊤ ∧ (0 : WithTop ℚ) < (ddaInit sqrtQ p0 p1).tDeltaY := by
  have hstep : (if 0 < p1.y - p0.y then (1 : ℤ) else if p1.y - p0.y < 0 then -1 else 0) ≠ 0 := by
    rcases lt_trichotomy (p1.y - p0.y) 0 with hlt | heq | hgt
    · simp [not_lt.mpr hlt.le, hlt]
    · exact absurd heq h
    · simp [hgt]
  show (if _ ≠ (0 : ℤ) then _ else _) ≠ ⊤ ∧ (0 : WithTop ℚ) < (if _ ≠ (0 : ℤ) then _ else _)
  rw [if_pos hstep]
  refine ⟨WithTop.coe_ne_top, ?_⟩
  exact WithTop.coe_lt_coe.mpr (one_div_pos.mpr (abs_pos.mpr h))

theorem ddaInit_tDeltaZ_pos (sqrtQ : ℚ → ℚ) (p0 p1 : Vec3) (h : p1.z - p0.z ≠ 0) :
    (ddaInit sqrtQ p0 p1).tDeltaZ ≠ ⊤ ∧ (0 : WithTop ℚ) < (ddaInit sqrtQ p0 p1).tDeltaZ := by
  have hstep : (if 0 < p1.z - p0.z then (1 : ℤ) else if p1.z - p0.z < 0 then -1 else 0) ≠ 0 := by
    rcases lt_trichotomy (p1.z - p0.z) 0 with hlt | heq | hgt
    · simp [not_lt.mpr hlt.le, hlt]
    · exact absurd heq h
    · simp [hgt]
  show (if _ ≠ (0 : ℤ) then _ else _) ≠ ⊤ ∧ (0 : WithTop ℚ) < (if _ ≠ (0 : ℤ) then _ else _)
  rw [if_pos hstep]
  refine ⟨WithTop.coe_ne_top, ?_⟩
  exact WithTop.coe_lt_coe.mpr (one_div_pos.mpr (abs_pos.mpr h))

theorem ddaInit_top_x (sqrtQ : ℚ → ℚ) (p0 p1 : Vec3) (h : p1.x - p0.x = 0) :
    (ddaInit sqrtQ p0 p1).tMaxX = ⊤ ∧ (ddaInit sqrtQ p0 p1).tDeltaX = ⊤ := by
  have heq : p1.x = p0.x := sub_eq_zero.mp h
  constructor
  · show (if (if 0 < p1.x - p0.x then (1 : ℤ) else if p1.x - p0.x < 0 then -1 else 0) ≠ 0
      then _ else _) = (⊤ : WithTop ℚ)
    rw [if_neg (by simp [heq])]
  · show (if (if 0 < p1.x - p0.x then (1 : ℤ) else if p1.x - p0.x < 0 then -1 else 0) ≠ 0
      then _ else _) = (⊤ : WithTop ℚ)
    rw [if_neg (by simp [heq])]

theorem ddaInit_top_y (sqrtQ : ℚ → ℚ) (p0 p1 : Vec3) (h : p1.y - p0.y = 0) :
    (ddaInit sqrtQ p0 p1).tMaxY = ⊤ ∧ (ddaInit sqrtQ p0 p1).tDeltaY = ⊤ := by
  have heq : p1.y = p0.y := sub_eq_zero.mp h
  constructor
  · show (if (if 0 < p1.y - p0.y then (1 : ℤ) else if p1.y - p0.y < 0 then -1 else 0) ≠ 0
      then _ else _) = (⊤ : WithTop ℚ)
    rw [if_neg (by simp [heq])]
  · show (if (if 0 < p1.y - p0.y then (1 : ℤ) else if p1.y - p0.y < 0 then -1 else 0) ≠ 0
      then _ else _) = (⊤ : WithTop ℚ)
    rw [if_neg (by simp [heq])]

theorem ddaInit_top_z (sqrtQ : ℚ → ℚ) (p0 p1 : Vec3) (h : p1.z - p0.z = 0) :
    (ddaInit sqrtQ p0 p1).tMaxZ = ⊤ ∧ (ddaInit sqrtQ p0 p1).tDeltaZ = ⊤ := by
  have heq : p1.z = p0.z := sub_eq_zero.mp h
  constructor
  · show (if (if 0 < p1.z - p0.z then (1 : ℤ) else if p1.z - p0.z < 0 then -1 else 0) ≠ 0
      then _ else _) = (⊤ : WithTop ℚ)
    rw [if_neg (by simp [heq])]
  · show (if (if 0 < p1.z - p0.z then (1 : ℤ) else if p1.z - p0.z < 0 then -1 else 0) ≠ 0
      then _ else _) = (⊤ : WithTop ℚ)
    rw [if_neg (by simp [heq])]

theorem stateWF_init (sqrtQ : ℚ → ℚ) (p0 p1 : Vec3) :
    StateWF (ddaInit sqrtQ p0 p1) := by
  refine ⟨?_, ?_, ?_⟩
  · by_cases h : p1.x - p0.x = 0
    · exact Or.inl (ddaInit_top_x sqrtQ p0 p1 h)
    · obtain ⟨h1, h2⟩ := ddaInit_tDeltaX_pos sqrtQ p0 p1 h
      exact Or.inr ⟨h1, h2⟩
  · by_cases h : p1.y - p0.y = 0
    · exact Or.inl (ddaInit_top_y sqrtQ p0 p1 h)
    · obtain ⟨h1, h2⟩ := ddaInit_tDeltaY_pos sqrtQ p0 p1 h
      exact Or.inr ⟨h1, h2⟩
  · by_cases h : p1.z - p0.z = 0
    · exact Or.inl (ddaInit_top_z sqrtQ p0 p1 h)
    · obtain ⟨h1, h2⟩ := ddaInit_tDeltaZ_pos sqrtQ p0 p1 h
      exact Or.inr ⟨h1, h2⟩

/-- C6 (amended): each DDA iteration advances along an axis whose `t_max` is
the minimum of the three (the new traversal parameter is exactly that
minimum), but exact ties are broken with the fixed priority z before y before
x - the opposite order of the claim: x is stepped only when its `t_max` is
strictly smallest, y when it is no larger than x's and strictly smaller than
z's, and z whenever its `t_max` is no larger than both others. -/
theorem c6_dda_axis_choice (s : DdaState) (tx ty tz : WithTop ℚ) :
    (ddaStep s).t = min s.tMaxX (min s.tMaxY s.tMaxZ) ∧
    (ddaChoose tx ty tz = Axis.x ↔ tx < ty ∧ tx < tz) ∧
    (ddaChoose tx ty tz = Axis.y ↔ ty ≤ tx ∧ ty < tz) ∧
    (ddaChoose tx ty tz = Axis.z ↔ tz ≤ tx ∧ tz ≤ ty) :=
  ⟨ddaStep_t s, ddaChoose_eq_x tx ty tz, ddaChoose_eq_y tx ty tz,
    ddaChoose_eq_z tx ty tz⟩

/-- C6 counterexample: with all three `t_max` values tied (here at 1), the
claim's x-before-y-before-z priority demands the x axis be stepped, but the
code's strict comparisons fall through to the z branch. -/
theorem c6_cex :
    ddaChoose (1 : WithTop ℚ) (1 : WithTop ℚ) (1 : WithTop ℚ) = Axis.z ∧
      Axis.z ≠ Axis.x := by
  constructor
  · unfold ddaChoose
    simp
  · decide

/-- C10 (amended): the DDA loop terminates.  For every start state produced
by the initializer the loop, run with fuel `ddaMeasure + 2`, reaches a
definite answer (never exhausts its fuel); in the non-degenerate case at
least one axis has a finite positive `t_delta`; the loop exits as soon as the
traversal parameter exceeds 1; and each iteration taken while the minimal
`t_max` is still ≤ 1 strictly decreases the fuel measure (the stepped axis's
`t_max` grows by its positive `t_delta`).  The claim's further assertion that
`t` strictly increases at every iteration is corrected by `c10_cex`: on exact
ties `t` can repeat; it is the measure, not `t`, that strictly decreases. -/
theorem c10_dda_terminates (sqrtQ : ℚ → ℚ) (p0 p1 : Vec3)
    (solids : Finset (ℤ × ℤ × ℤ)) :
    (∃ b : Bool, ddaLoopF solids (ddaMeasure (ddaInit sqrtQ p0 p1) + 2)
        (ddaInit sqrtQ p0 p1) = some b) ∧
    (¬(p1.x - p0.x = 0 ∧ p1.y - p0.y = 0 ∧ p1.z - p0.z = 0) →
      ((ddaInit sqrtQ p0 p1).tDeltaX ≠ ⊤ ∧ (0 : WithTop ℚ) < (ddaInit sqrtQ p0 p1).tDeltaX) ∨
      ((ddaInit sqrtQ p0 p1).tDeltaY ≠ ⊤ ∧ (0 : WithTop ℚ) < (ddaInit sqrtQ p0 p1).tDeltaY) ∨
      ((ddaInit sqrtQ p0 p1).tDeltaZ ≠ ⊤ ∧ (0 : WithTop ℚ) < (ddaInit sqrtQ p0 p1).tDeltaZ)) ∧
    (∀ s : DdaState, ¬ s.t ≤ (1 : WithTop ℚ) → ∀ n : ℕ,
      ddaLoopF solids (n + 1) s = some false) ∧
    (∀ s : DdaState, StateWF s → min s.tMaxX (min s.tMaxY s.tMaxZ) ≤ (1 : WithTop ℚ) →
      ddaMeasure (ddaStep s) < ddaMeasure s) := by
  refine ⟨?_, ?_, ?_, ?_⟩
  · have h := ddaLoopF_total solids (ddaMeasure (ddaInit sqrtQ p0 p1))
      (ddaInit sqrtQ p0 p1) (stateWF_init sqrtQ p0 p1) le_rfl
    exact Option.ne_none_iff_exists'.mp h
  · intro hnd
    by_cases hx : p1.x - p0.x = 0
    · by_cases hy : p1.y - p0.y = 0
      · by_cases hz : p1.z - p0.z = 0
        · exact absurd ⟨hx, hy, hz⟩ hnd
        · exact Or.inr (Or.inr (ddaInit_tDeltaZ_pos sqrtQ p0 p1 hz))
      · exact Or.inr (Or.inl (ddaInit_tDeltaY_pos sqrtQ p0 p1 hy))
    · exact Or.inl (ddaInit_tDeltaX_pos sqrtQ p0 p1 hx)
  · exact fun s ht n => ddaLoopF_exits solids s ht n
  · exact fun s hwf hmin => ddaMeasure_step_lt s hwf hmin

/-- C10 witness: at the concrete diagonal segment with no solids, the loop
yields an answer within its fuel; the nondegeneracy, exit and
measure-decrease conjuncts are discharged at the concrete inputs
`ddaStateDone` (parameter already past 1) and `ddaStateTied` (well-formed,
minimal `t_max` at 1). -/
theorem c10_witness :
    (∃ b : Bool, ddaLoopF ∅ (ddaMeasure (ddaInit sqrtId diagP0 diagP1) + 2)
        (ddaInit sqrtId diagP0 diagP1) = some b) ∧
    (((ddaInit sqrtId diagP0 diagP1).tDeltaX ≠ ⊤ ∧
        (0 : WithTop ℚ) < (ddaInit sqrtId diagP0 diagP1).tDeltaX) ∨
      ((ddaInit sqrtId diagP0 diagP1).tDeltaY ≠ ⊤ ∧
        (0 : WithTop ℚ) < (ddaInit sqrtId diagP0 diagP1).tDeltaY) ∨
      ((ddaInit sqrtId diagP0 diagP1).tDeltaZ ≠ ⊤ ∧
        (0 : WithTop ℚ) < (ddaInit sqrtId diagP0 diagP1).tDeltaZ)) ∧
    ddaLoopF ∅ (0 + 1) ddaStateDone = some false ∧
    ddaMeasure (ddaStep ddaStateTied) < ddaMeasure ddaStateTied := by
  have h := c10_dda_terminates sqrtId diagP0 diagP1 ∅
  exact ⟨h.1, h.2.1 (by with_unfolding_all decide),
    h.2.2.1 ddaStateDone (by with_unfolding_all decide) 0,
    h.2.2.2 ddaStateTied (by with_unfolding_all decide) (by with_unfolding_all decide)⟩

/-- C10 counterexample: on the exactly diagonal segment all three `t_max`
values tie, and the iteration taken from the second state assigns `t` the
same value as before - the loop is still running (`t ≤ 1`, no voxel is
solid), yet `t` does not strictly increase, refuting the claim's "each loop
iteration strictly increases the traversal parameter t". -/
theorem c10_cex :
    (ddaStep (ddaInit sqrtZero diagP0 diagP1)).t ≤ (1 : WithTop ℚ) ∧
    (ddaStep (ddaStep (ddaInit sqrtZero diagP0 diagP1))).t =
      (ddaStep (ddaInit sqrtZero diagP0 diagP1)).t ∧
    ¬ (ddaStep (ddaInit sqrtZero diagP0 diagP1)).t <
      (ddaStep (ddaStep (ddaInit sqrtZero diagP0 diagP1))).t := by
  with_unfolding_all decide

/-! ### Attack evaluator (claims C4 and C9) -/

theorem dist2_nonneg (a p : Vec3) : 0 ≤ dist2 a p := by
  unfold dist2
  have h1 := mul_self_nonneg (a.x - p.x)
  have h2 := mul_self_nonneg (a.y - p.y)
  have h3 := mul_self_nonneg (a.z - p.z)
  linarith

theorem scanAttackers_nonneg (sqrtQ : ℚ → ℚ) (sb : Option (Finset (ℤ × ℤ × ℤ)))
    (p : Vec3) : ∀ (l : List Vec3) (best : Option ℚ),
    (∀ q, best = some q → 0 ≤ q) →
    ∀ q, scanAttackers sqrtQ sb p l best = some q → 0 ≤ q := by
  intro l
  induction l with
  | nil =>
    intro best hbest q hq
    exact hbest q hq
  | cons a rest ih =>
    intro best hbest q hq
    unfold scanAttackers at hq
    by_cases hv : is_visible sqrtQ a p none sb none
    · simp only [if_pos hv] at hq
      rcases best with _ | b
      · by_cases hz : dist2 a p = 0
        · simp only [if_pos hz] at hq
          cases hq
          exact le_refl 0
        · simp only [if_neg hz] at hq
          exact ih _ (fun q' hq' => by cases hq'; exact dist2_nonneg a p) q hq
      · by_cases hlt : dist2 a p < b
        · simp only [if_pos hlt] at hq
          by_cases hz : dist2 a p = 0
          · simp only [if_pos hz] at hq
            cases hq
            exact le_refl 0
          · simp only [if_neg hz] at hq
            exact ih _ (fun q' hq' => by cases hq'; exact dist2_nonneg a p) q hq
        · simp only [if_neg hlt] at hq
          exact ih _ (fun q' hq' => by cases hq'; exact hbest b rfl) q hq
    · simp only [if_neg hv] at hq
      exact ih _ hbest q hq

theorem scanTargets_vis_le (sqrtQ : ℚ → ℚ) (sb : Option (Finset (ℤ × ℤ × ℤ)))
    (att : List Vec3) (r2 : ℚ) : ∀ (l : List Vec3) (acc : ScanAcc),
    (scanTargets sqrtQ sb att r2 l acc).visible ≤ acc.visible + l.length := by
  intro l
  induction l with
  | nil => intro acc; simp [scanTargets]
  | cons p rest ih =>
    intro acc
    unfold scanTargets
    rcases scanAttackers sqrtQ sb p att none with _ | bfp
    · have := ih acc
      simp only [List.length_cons]
      omega
    · simp only [List.length_cons]
      refine le_trans (ih _) ?_
      show acc.visible + 1 + rest.length ≤ acc.visible + (rest.length + 1)
      omega

theorem scanTargets_rv_le (sqrtQ : ℚ → ℚ) (sb : Option (Finset (ℤ × ℤ × ℤ)))
    (att : List Vec3) (r2 : ℚ) : ∀ (l : List Vec3) (acc : ScanAcc),
    acc.reachable_visible ≤ acc.visible →
    (scanTargets sqrtQ sb att r2 l acc).reachable_visible ≤
      (scanTargets sqrtQ sb att r2 l acc).visible := by
  intro l
  induction l with
  | nil => intro acc h; simpa [scanTargets] using h
  | cons p rest ih =>
    intro acc h
    unfold scanTargets
    rcases scanAttackers sqrtQ sb p att none with _ | bfp
    · exact ih acc h
    · apply ih
      show acc.reachable_visible + (if bfp ≤ r2 then 1 else 0) ≤ acc.visible + 1
      split <;> omega

theorem scanTargets_top_iff (sqrtQ : ℚ → ℚ) (sb : Option (Finset (ℤ × ℤ × ℤ)))
    (att : List Vec3) (r2 : ℚ) : ∀ (l : List Vec3) (acc : ScanAcc),
    (acc.best2 = ⊤ ↔ acc.visible = 0) →
    ((scanTargets sqrtQ sb att r2 l acc).best2 = ⊤ ↔
      (scanTargets sqrtQ sb att r2 l acc).visible = 0) := by
  intro l
  induction l with
  | nil => intro acc h; simpa [scanTargets] using h
  | cons p rest ih =>
    intro acc h
    unfold scanTargets
    rcases scanAttackers sqrtQ sb p att none with _ | bfp
    · exact ih acc h
    · apply ih
      show (if (bfp : WithTop ℚ) < acc.best2 then (bfp : WithTop ℚ) else acc.best2) = ⊤ ↔
        acc.visible + 1 = 0
      constructor
      · intro htop
        by_cases hlt : (bfp : WithTop ℚ) < acc.best2
        · rw [if_pos hlt] at htop
          exact absurd htop (WithTop.coe_ne_top)
        · rw [if_neg hlt] at htop
          have : (bfp : WithTop ℚ) < acc.best2 := htop ▸ WithTop.coe_lt_top bfp
          exact absurd this hlt
      · intro hv
        exact absurd hv (by omega)

theorem scanTargets_reach_iff (sqrtQ : ℚ → ℚ) (sb : Option (Finset (ℤ × ℤ × ℤ)))
    (att : List Vec3) (r2 : ℚ) : ∀ (l : List Vec3) (acc : ScanAcc),
    (0 < acc.reachable_visible ↔ acc.best2 ≤ (r2 : WithTop ℚ)) →
    (0 < (scanTargets sqrtQ sb att r2 l acc).reachable_visible ↔
      (scanTargets sqrtQ sb att r2 l acc).best2 ≤ (r2 : WithTop ℚ)) := by
  intro l
  induction l with
  | nil => intro acc h; simpa [scanTargets] using h
  | cons p rest ih =>
    intro acc h
    unfold scanTargets
    rcases scanAttackers sqrtQ sb p att none with _ | bfp
    · exact ih acc h
    · apply ih
      show 0 < acc.reachable_visible + (if bfp ≤ r2 then 1 else 0) ↔
        (if (bfp : WithTop ℚ) < acc.best2 then (bfp : WithTop ℚ) else acc.best2) ≤
          (r2 : WithTop ℚ)
      have hmin : (if (bfp : WithTop ℚ) < acc.best2 then (bfp : WithTop ℚ) else acc.best2) =
          min (bfp : WithTop ℚ) acc.best2 := by
        split
        · exact (min_eq_left (le_of_lt (by assumption))).symm
        · exact (min_eq_right (le_of_not_lt (by assumption))).symm
      rw [hmin, min_le_iff, WithTop.coe_le_coe]
      constructor
      · intro hpos
        by_cases hb : bfp ≤ r2
        · exact Or.inl hb
        · right
          rw [if_neg hb] at hpos
          exact h.mp (by omega)
      · intro hor
        rcases hor with hb | hacc
        · rw [if_pos hb]
          omega
        · have := h.mpr hacc
          omega

theorem scanTargets_best_nonneg (sqrtQ : ℚ → ℚ) (sb : Option (Finset (ℤ × ℤ × ℤ)))
    (att : List Vec3) (r2 : ℚ) : ∀ (l : List Vec3) (acc : ScanAcc),
    (acc.best2 = ⊤ ∨ ∃ b : ℚ, acc.best2 = (b : WithTop ℚ) ∧ 0 ≤ b) →
    ((scanTargets sqrtQ sb att r2 l acc).best2 = ⊤ ∨
      ∃ b : ℚ, (scanTargets sqrtQ sb att r2 l acc).best2 = (b : WithTop ℚ) ∧ 0 ≤ b) := by
  intro l
  induction l with
  | nil => intro acc h; simpa [scanTargets] using h
  | cons p rest ih =>
    intro acc h
    unfold scanTargets
    rcases hscan : scanAttackers sqrtQ sb p att none with _ | bfp
    · exact ih acc h
    · apply ih
      show (if (bfp : WithTop ℚ) < acc.best2 then (bfp : WithTop ℚ) else acc.best2) = ⊤ ∨ _
      have hbfp : 0 ≤ bfp :=
        scanAttackers_nonneg sqrtQ sb p att none (by intro q hq; cases hq) bfp hscan
      by_cases hlt : (bfp : WithTop ℚ) < acc.best2
      · rw [if_pos hlt]
        exact Or.inr ⟨bfp, rfl, hbfp⟩
      · rw [if_neg hlt]
        exact h

/-- C4: for every input, `evaluate_attack` returns fractions with
`within_reach_of_visible ≥ within_reach_of_total` (the reachable count is
divided by the smaller visible denominator), and when no target surface
point is visible both fractions are 0. -/
theorem c4_within_reach_fractions (sqrtQ : ℚ → ℚ) (attacker_eye : Vec3)
    (target : AABB) (solid_blocks : Option (Finset (ℤ × ℤ × ℤ))) (reach : ℚ)
    (surface_samples : ℤ) (attack_offset : ℚ) (attack_samples : ℤ) :
    (evaluate_attack sqrtQ attacker_eye target solid_blocks reach
        surface_samples attack_offset attack_samples).within_reach_of_total ≤
      (evaluate_attack sqrtQ attacker_eye target solid_blocks reach
        surface_samples attack_offset attack_samples).within_reach_of_visible ∧
    ((evaluate_attack sqrtQ attacker_eye target solid_blocks reach
        surface_samples attack_offset attack_samples).any_visible = false →
      (evaluate_attack sqrtQ attacker_eye target solid_blocks reach
        surface_samples attack_offset attack_samples).within_reach_of_visible = 0 ∧
      (evaluate_attack sqrtQ attacker_eye target solid_blocks reach
        surface_samples attack_offset attack_samples).within_reach_of_total = 0) := by
  simp only [evaluate_attack]
  by_cases htot : (sample_aabb_surface target surface_samples).length = 0
  · rw [if_pos htot]
    exact ⟨le_refl 0, fun _ => ⟨rfl, rfl⟩⟩
  · simp only [if_neg htot]
    set tgt := sample_aabb_surface target surface_samples with htgt
    set att := sample_segment attacker_eye
      (attacker_eye +
        (if sqrtQ ((target.closest_point attacker_eye - attacker_eye).dot
            (target.closest_point attacker_eye - attacker_eye)) = 0 then (⟨0, 0, 0⟩ : Vec3)
         else (target.closest_point attacker_eye - attacker_eye) *
            (1 / sqrtQ ((target.closest_point attacker_eye - attacker_eye).dot
              (target.closest_point attacker_eye - attacker_eye)))) * attack_offset)
      attack_samples with hatt
    set acc := scanTargets sqrtQ solid_blocks att (reach * reach) tgt ⟨0, 0, ⊤, none⟩
      with hacc
    have hrv : acc.reachable_visible ≤ acc.visible :=
      scanTargets_rv_le sqrtQ solid_blocks att (reach * reach) tgt _ (le_refl 0)
    have hvt : acc.visible ≤ tgt.length := by
      have := scanTargets_vis_le sqrtQ solid_blocks att (reach * reach) tgt ⟨0, 0, ⊤, none⟩
      simpa using this
    constructor
    · show (acc.reachable_visible : ℚ) / (tgt.length : ℚ) ≤
        (if 0 < acc.visible then (acc.reachable_visible : ℚ) / (acc.visible : ℚ) else 0)
      by_cases hvis : 0 < acc.visible
      · rw [if_pos hvis]
        apply div_le_div_of_nonneg_left (by positivity) (by exact_mod_cast hvis)
        exact_mod_cast hvt
      · rw [if_neg hvis]
        have : acc.reachable_visible = 0 := by omega
        simp [this]
    · intro hnv
      have hvis : ¬ 0 < acc.visible := by
        intro hpos
        have : decide (0 < acc.visible) = true := decide_eq_true hpos
        show False
        have hnv' : decide (0 < acc.visible) = false := hnv
        rw [this] at hnv'
        cases hnv'
      have hv0 : acc.visible = 0 := by omega
      have hr0 : acc.reachable_visible = 0 := by omega
      constructor
      · show (if 0 < acc.visible then (acc.reachable_visible : ℚ) / (acc.visible : ℚ)
          else 0) = 0
        rw [if_neg hvis]
      · show (acc.reachable_visible : ℚ) / (tgt.length : ℚ) = 0
        simp [hr0]

/-- C4 witness: with the attacker eye buried inside the solid origin voxel,
every target surface point of the unit box is occluded, so `any_visible` is
false and the theorem makes both within-reach fractions 0 (and ordered). -/
theorem c4_witness :
    (evaluate_attack sqrtId eyeInBlock unitBox (some originCell) 3 1 (4/5)
        1).within_reach_of_total ≤
      (evaluate_attack sqrtId eyeInBlock unitBox (some originCell) 3 1 (4/5)
        1).within_reach_of_visible ∧
    (evaluate_attack sqrtId eyeInBlock unitBox (some originCell) 3 1 (4/5)
        1).within_reach_of_visible = 0 ∧
    (evaluate_attack sqrtId eyeInBlock unitBox (some originCell) 3 1 (4/5)
        1).within_reach_of_total = 0 := by
  have h := c4_within_reach_fractions sqrtId eyeInBlock unitBox (some originCell)
    3 1 (4/5) 1
  exact ⟨h.1, h.2 (by with_unfolding_all decide)⟩

/-- C9: for every input with `reach ≥ 0` - stated for any square-root
routine `sqrtQ` that is correct about the threshold `reach`, i.e.
`sqrtQ a ≤ reach ↔ a ≤ reach²` for `a ≥ 0`, which the real `math.sqrt`
satisfies - the evaluator's `any_reachable` holds exactly when
`min_dist ≤ reach`, and `min_dist` is finite exactly when `any_visible`
holds (`min_dist = ∞` exactly when no target surface point is visible). -/
theorem c9_reachability_iff (sqrtQ : ℚ → ℚ) (attacker_eye : Vec3)
    (target : AABB) (solid_blocks : Option (Finset (ℤ × ℤ × ℤ))) (reach : ℚ)
    (surface_samples : ℤ) (attack_offset : ℚ) (attack_samples : ℤ)
    (_hreach : 0 ≤ reach)
    (hsq : ∀ a : ℚ, 0 ≤ a → (sqrtQ a ≤ reach ↔ a ≤ reach ^ 2)) :
    ((evaluate_attack sqrtQ attacker_eye target solid_blocks reach
        surface_samples attack_offset attack_samples).any_reachable = true ↔
      (evaluate_attack sqrtQ attacker_eye target solid_blocks reach
        surface_samples attack_offset attack_samples).min_dist ≤
        (reach : WithTop ℚ)) ∧
    ((evaluate_attack sqrtQ attacker_eye target solid_blocks reach
        surface_samples attack_offset attack_samples).min_dist ≠ ⊤ ↔
      (evaluate_attack sqrtQ attacker_eye target solid_blocks reach
        surface_samples attack_offset attack_samples).any_visible = true) := by
  simp only [evaluate_attack]
  by_cases htot : (sample_aabb_surface target surface_samples).length = 0
  · simp only [if_pos htot]
    constructor
    · constructor
      · intro h
        cases h
      · intro h
        exact absurd (top_le_iff.mp h) WithTop.coe_ne_top
    · constructor
      · intro h
        exact absurd rfl h
      · intro h
        cases h
  · simp only [if_neg htot]
    set tgt := sample_aabb_surface target surface_samples with htgt
    set att := sample_segment attacker_eye
      (attacker_eye +
        (if sqrtQ ((target.closest_point attacker_eye - attacker_eye).dot
            (target.closest_point attacker_eye - attacker_eye)) = 0 then (⟨0, 0, 0⟩ : Vec3)
         else (target.closest_point attacker_eye - attacker_eye) *
            (1 / sqrtQ ((target.closest_point attacker_eye - attacker_eye).dot
              (target.closest_point attacker_eye - attacker_eye)))) * attack_offset)
      attack_samples with hatt
    set acc := scanTargets sqrtQ solid_blocks att (reach * reach) tgt ⟨0, 0, ⊤, none⟩
      with hacc
    have htop : acc.best2 = ⊤ ↔ acc.visible = 0 := by
      apply scanTargets_top_iff
      simp
    have hiff : 0 < acc.reachable_visible ↔ acc.best2 ≤ ((reach * reach : ℚ) : WithTop ℚ) := by
      apply scanTargets_reach_iff
      constructor
      · intro h
        exact absurd h (by decide)
      · intro h
        exact absurd (top_le_iff.mp h) WithTop.coe_ne_top
    have hnn : acc.best2 = ⊤ ∨ ∃ b : ℚ, acc.best2 = (b : WithTop ℚ) ∧ 0 ≤ b := by
      apply scanTargets_best_nonneg
      exact Or.inl rfl
    constructor
    · show (decide (0 < acc.reachable_visible) = true ↔
        (match acc.best2 with
          | some b2 => some (sqrtQ b2)
          | ⊤ => ⊤) ≤ (reach : WithTop ℚ))
      rw [decide_eq_true_iff, hiff]
      rcases hnn with hb | ⟨b, hb, hb0⟩
      · rw [hb]
        constructor
        · intro h
          exact absurd (top_le_iff.mp h) WithTop.coe_ne_top
        · intro h
          exact absurd (top_le_iff.mp h) WithTop.coe_ne_top
      · rw [hb]
        show ((b : WithTop ℚ) ≤ ((reach * reach : ℚ) : WithTop ℚ)) ↔
          ((sqrtQ b : ℚ) : WithTop ℚ) ≤ (reach : WithTop ℚ)
        rw [WithTop.coe_le_coe, WithTop.coe_le_coe, hsq b hb0, sq]
    · show ((match acc.best2 with
          | some b2 => some (sqrtQ b2)
          | ⊤ => ⊤) ≠ (⊤ : WithTop ℚ) ↔ decide (0 < acc.visible) = true)
      rw [decide_eq_true_iff]
      rcases hnn with hb | ⟨b, hb, _⟩
      · rw [hb]
        simp only [ne_eq, not_true_eq_false, false_iff]
        intro h
        have := htop.mp hb
        omega
      · rw [hb]
        constructor
        · intro _
          have : acc.best2 ≠ ⊤ := by
            rw [hb]
            exact WithTop.coe_ne_top
          have hv : acc.visible ≠ 0 := fun h0 => this (htop.mpr h0)
          omega
        · intro _
          exact WithTop.coe_ne_top

/-- C9 witness: at a concrete evaluation with reach 3 and a square-root
stand-in correct about that threshold, both equivalences hold. -/
theorem c9_witness :
    ((evaluate_attack sqrtStep9 ⟨0, 0, 0⟩ unitBox none 3 1 (4/5)
        1).any_reachable = true ↔
      (evaluate_attack sqrtStep9 ⟨0, 0, 0⟩ unitBox none 3 1 (4/5)
        1).min_dist ≤ ((3 : ℚ) : WithTop ℚ)) ∧
    ((evaluate_attack sqrtStep9 ⟨0, 0, 0⟩ unitBox none 3 1 (4/5)
        1).min_dist ≠ ⊤ ↔
      (evaluate_attack sqrtStep9 ⟨0, 0, 0⟩ unitBox none 3 1 (4/5)
        1).any_visible = true) := by
  have h := c9_reachability_iff sqrtStep9 ⟨0, 0, 0⟩ unitBox none 3 1 (4/5) 1
    (by norm_num)
    (by
      intro a ha
      simp only [sqrtStep9]
      by_cases hc : a ≤ 9
      · rw [if_pos hc]
        norm_num [hc]
      · rw [if_neg hc]
        norm_num [hc])
  exact h

/-! ### Summary statistics (claim C3) -/

/-- C3 (amended): `summarize` on an empty trial list returns count 0, the
reach passed in, `hit_prob_any = 0.0` (the one derived field that is NOT the
NaN sentinel - the empty branch passes a literal `0.0` for it), and NaN
(modelled as `none`) for every other derived statistical field. -/
theorem c3_summarize_empty (reach : ℚ) :
    summarize [] reach =
      ⟨0, reach, some 0, none, none, none, none, none, none, none, none, none⟩ := by
  rfl

/-- C3 counterexample: the claim says every derived field of the empty
summary, including `hit_prob_any`, is NaN; but the code returns the float
`0.0` (here `some 0`, while NaN is modelled by `none`) for `hit_prob_any`. -/
theorem c3_cex :
    (summarize [] 3).hit_prob_any = some 0 ∧ (summarize [] 3).hit_prob_any ≠ none := by
  constructor
  · rfl
  · intro h
    cases h

/-! ### Trial runner (claims C1, C2 and C8) -/

/-- C1: reproducibility.  `run_sim` consumes no input other than the draw
stream (fixed by the generator algorithm `gen` and the seed), the square-root
routine, the world snapshot and the configurations, so two runs with the
same seed, the same jitter ranges, the same `SimConfig` and the same world
snapshot produce element-wise identical `TrialResult` lists in both
directions. -/
theorem c1_run_sim_reproducible (gen : ℤ → ℕ → ℚ → ℚ → ℚ) (sqrtQ : ℚ → ℚ)
    (world : World) (cfg : SimConfig) (j1 j2 : JitterSpec)
    (hseed : j1.seed = j2.seed) (hjx : j1.jx = j2.jx) (hjy : j1.jy = j2.jy)
    (hjz : j1.jz = j2.jz) :
    (run_sim gen sqrtQ world j1 cfg none).2.2.1 =
      (run_sim gen sqrtQ world j2 cfg none).2.2.1 ∧
    (run_sim gen sqrtQ world j1 cfg none).2.2.2 =
      (run_sim gen sqrtQ world j2 cfg none).2.2.2 := by
  have h : j1 = j2 := by
    cases j1
    cases j2
    simp_all
  rw [h]
  exact ⟨rfl, rfl⟩

/-- C1 witness: the reproducibility theorem applied at a concrete generator,
world and configuration, with the default jitter specification twice. -/
theorem c1_witness :
    (run_sim genSteps sqrtId worldAB jitterX cfgOne none).2.2.1 =
      (run_sim genSteps sqrtId worldAB jitterX cfgOne none).2.2.1 ∧
    (run_sim genSteps sqrtId worldAB jitterX cfgOne none).2.2.2 =
      (run_sim genSteps sqrtId worldAB jitterX cfgOne none).2.2.2 :=
  c1_run_sim_reproducible genSteps sqrtId worldAB cfgOne jitterX jitterX
    rfl rfl rfl rfl

theorem oneDirGo_none_idx (gen : ℤ → ℕ → ℚ → ℚ → ℚ) (sqrtQ : ℚ → ℚ)
    (jitter : JitterSpec) (cfg : SimConfig) (attacker defender : Player)
    (solids : Finset (ℤ × ℤ × ℤ)) :
    ∀ (rem : ℕ) (rng : Rng) (s1 s2 : ℕ),
    (oneDirGo gen sqrtQ jitter cfg attacker defender solids none rem rng s1).1 =
    (oneDirGo gen sqrtQ jitter cfg attacker defender solids none rem rng s2).1 := by
  intro rem
  induction rem with
  | zero => intros; rfl
  | succ rem ih =>
    intro rng s1 s2
    show _ :: (oneDirGo gen sqrtQ jitter cfg attacker defender solids none rem _ s1).1 =
      _ :: (oneDirGo gen sqrtQ jitter cfg attacker defender solids none rem _ s2).1
    rw [ih]

/-- C2 (amended): each call to `_one_direction` creates its own generator
instance, freshly seeded from `JitterSpec.seed` (line 22 of sim/runner.py),
so the B direction restarts the draw stream from the seed instead of
continuing where the A direction stopped.  Consequently both directions
consume identical draw sequences, and when the two player slots hold the
identical player the two directions produce identical trial lists. -/
theorem c2_each_direction_reseeds (gen : ℤ → ℕ → ℚ → ℚ → ℚ) (sqrtQ : ℚ → ℚ)
    (world : World) (jitter : JitterSpec) (cfg : SimConfig)
    (h : world.player_a = world.player_b) :
    (run_sim gen sqrtQ world jitter cfg none).2.2.1 =
    (run_sim gen sqrtQ world jitter cfg none).2.2.2 := by
  simp only [run_sim, one_direction, checkStop, if_true, Bool.false_eq_true,
    if_false, h]
  exact oneDirGo_none_idx gen sqrtQ jitter cfg world.player_b world.player_b
    world.solid_block_keys cfg.trials jitter.rng 0 _

/-- C2 amended-claim witness: in a world whose two player slots hold the
identical player value, the A-direction and B-direction trial lists of one
run coincide, because the B direction restarts the generator from the seed. -/
theorem c2_witness :
    (run_sim genSteps sqrtId worldSame jitterX cfgOne none).2.2.1 =
    (run_sim genSteps sqrtId worldSame jitterX cfgOne none).2.2.2 :=
  c2_each_direction_reseeds genSteps sqrtId worldSame jitterX cfgOne rfl

set_option maxRecDepth 10000 in
/-- C2 counterexample: the claim (one shared generator stream, B continuing
after A) is the behaviour of `run_sim_spec_shared`; at a concrete world,
draw stream and one-trial configuration the code's `run_sim` produces a
different B-direction trial list, because its B direction re-seeds and
replays the draws the A direction used. -/
theorem c2_cex :
    (run_sim genSteps sqrtId worldAB jitterX cfgOne none).2.2.2 ≠
    (run_sim_spec_shared genSteps sqrtId worldAB jitterX cfgOne none).2.2.2 := by
  with_unfolding_all decide

theorem oneDirGo_stopped (gen : ℤ → ℕ → ℚ → ℚ → ℚ) (sqrtQ : ℚ → ℚ)
    (jitter : JitterSpec) (cfg : SimConfig) (attacker defender : Player)
    (solids : Finset (ℤ × ℤ × ℤ)) (f : ℕ → Bool) (j : ℕ)
    (hj : f j = true) (hmin : ∀ i, i < j → f i = false) :
    ∀ (rem : ℕ) (s : ℕ) (rng : Rng), s ≤ j → j - s < rem →
    (oneDirGo gen sqrtQ jitter cfg attacker defender solids (some f) rem rng s).1.length
        = j - s ∧
    (oneDirGo gen sqrtQ jitter cfg attacker defender solids (some f) rem rng s).2.2
        = j + 1 := by
  intro rem
  induction rem with
  | zero =>
    intro s rng h1 h2
    omega
  | succ rem ih =>
    intro s rng hsj hrem
    by_cases hs : s = j
    · subst hs
      unfold oneDirGo
      simp only [checkStop, hj, if_true, List.length_nil]
      exact ⟨by omega, trivial⟩
    · have hslt : s < j := lt_of_le_of_ne hsj hs
      have hfs : f s = false := hmin s hslt
      unfold oneDirGo
      simp only [checkStop, hfs]
      rw [if_neg (by simp)]
      obtain ⟨ihl, ihi⟩ := ih (s + 1) _ (by omega) (by omega)
      constructor
      · show ((_ : TrialResult) ::
          (oneDirGo gen sqrtQ jitter cfg attacker defender solids (some f) rem _
            (s + 1)).1).length = j - s
        rw [List.length_cons, ihl]
        omega
      · show (oneDirGo gen sqrtQ jitter cfg attacker defender solids (some f) rem _
          (s + 1)).2.2 = j + 1
        exact ihi

/-- C8: cancellation semantics of `run_sim`.  The stop flag is queried once
per trial, before that trial's evaluation: with a monotone flag whose first
true answer comes at query `j < trials`, the A direction completes exactly
`j` trials (having consumed `j + 1` queries), its partial list is
summarized as usual, the B direction runs zero trials, and the B-direction
summary is the empty-list summary.  Everything is a total function - a
cancelled run returns normally rather than raising. -/
theorem c8_cancellation (gen : ℤ → ℕ → ℚ → ℚ → ℚ) (sqrtQ : ℚ → ℚ)
    (world : World) (jitter : JitterSpec) (cfg : SimConfig) (f : ℕ → Bool)
    (j : ℕ) (hmono : ∀ i k, i ≤ k → f i = true → f k = true)
    (hj : f j = true) (hmin : ∀ i, i < j → f i = false) (hlt : j < cfg.trials) :
    (run_sim gen sqrtQ world jitter cfg (some f)).2.2.1.length = j ∧
    (one_direction gen sqrtQ world "A" "B" jitter cfg (some f) 0).2.2 = j + 1 ∧
    (run_sim gen sqrtQ world jitter cfg (some f)).2.2.2 = [] ∧
    (run_sim gen sqrtQ world jitter cfg (some f)).2.1 = summarize [] cfg.reach ∧
    (run_sim gen sqrtQ world jitter cfg (some f)).1 =
      summarize (run_sim gen sqrtQ world jitter cfg (some f)).2.2.1 cfg.reach := by
  obtain ⟨hlen, hidx⟩ := oneDirGo_stopped gen sqrtQ jitter cfg
    (if ("A" : String) = "A" then world.player_a else world.player_b)
    (if ("B" : String) = "B" then world.player_b else world.player_a)
    world.solid_block_keys f j hj hmin cfg.trials 0 jitter.rng (by omega)
    (by omega)
  have hid : (one_direction gen sqrtQ world "A" "B" jitter cfg (some f) 0).2.2
      = j + 1 := hidx
  have hld : (one_direction gen sqrtQ world "A" "B" jitter cfg (some f) 0).1.length
      = j := by
    rw [show j - 0 = j from rfl] at hlen
    exact hlen
  have hfj1 : f (j + 1) = true := hmono j (j + 1) (by omega) hj
  simp only [run_sim, checkStop, hid, hfj1, if_true]
  exact ⟨hld, trivial, trivial, trivial, trivial⟩

/-- C8 witness: with the monotone stop flag that answers true from query 1
on and a two-trial configuration, one trial completes in the A direction,
two queries are consumed, and the B direction is skipped with the empty
summary. -/
theorem c8_witness :
    (run_sim genSteps sqrtId worldAB jitterX cfgTwo (some fun i => decide (1 ≤ i))).2.2.1.length = 1 ∧
    (one_direction genSteps sqrtId worldAB "A" "B" jitterX cfgTwo
      (some fun i => decide (1 ≤ i)) 0).2.2 = 1 + 1 ∧
    (run_sim genSteps sqrtId worldAB jitterX cfgTwo (some fun i => decide (1 ≤ i))).2.2.2 = [] ∧
    (run_sim genSteps sqrtId worldAB jitterX cfgTwo (some fun i => decide (1 ≤ i))).2.1 =
      summarize [] cfgTwo.reach ∧
    (run_sim genSteps sqrtId worldAB jitterX cfgTwo (some fun i => decide (1 ≤ i))).1 =
      summarize (run_sim genSteps sqrtId worldAB jitterX cfgTwo
        (some fun i => decide (1 ≤ i))).2.2.1 cfgTwo.reach :=
  c8_cancellation genSteps sqrtId worldAB jitterX cfgTwo (fun i => decide (1 ≤ i)) 1
    (fun i k hik hi => by
      simp only [decide_eq_true_iff] at hi ⊢
      omega)
    (by decide) (fun i hi => by
      simp only [decide_eq_false_iff_not]
      omega) (by decide)

end MCalc
